import Mathlib

/-!
Verification of the spriteforge spriteops engine: a shallow embedding of
the raster primitives (`spriteforge/engine/raster.py`), the layer helpers
(`spriteforge/engine/layers.py`), the validator
(`spriteforge/engine/validate.py`), the frame-inheritance resolver and the
op interpreter (`spriteforge/engine/render.py`), together with theorems
settling the specification's claims about them.

Modelling conventions:
* Python `int` is `Int`; pixel buffers are `List Int`.
* Python `float` is modelled by `Frac`, an exact unnormalised fraction
  type (kept gcd-free so that all arithmetic reduces inside the kernel);
  the library calls `math.sqrt`,
  `math.cos`, `math.sin` are taken as explicit function parameters
  (`sqrtF`, `cosF`, `sinF`) of the definitions that use them, so that the
  definitions stay executable and theorems can state which properties of
  those calls they rely on.
* Fallible Python operations (list subscripts, `int(...)` conversions,
  `raise`) live in `Except String`.
* Python list subscripts accept negative indices (counting from the end)
  and raise `IndexError` otherwise; `pyget` / `pyset` / `pyIndex` model
  this exactly.
-/

namespace Spriteforge

/-- Exact fractions standing in for Python floats: an unnormalised
numerator/denominator pair.  Every fraction the embedding builds has a
positive denominator; staying away from gcd-normalisation keeps all
arithmetic kernel-reducible.  Division by a value-zero fraction returns 0
(the source never divides by zero on a reachable path; Python would raise
there). -/
structure Frac where
  num : Int
  den : Int
deriving DecidableEq, Repr

instance (n : Nat) : OfNat Frac n := ⟨⟨n, 1⟩⟩

instance : IntCast Frac := ⟨fun n => ⟨n, 1⟩⟩

instance : NatCast Frac := ⟨fun n => ⟨n, 1⟩⟩

instance : Add Frac := ⟨fun a b => ⟨a.num * b.den + b.num * a.den, a.den * b.den⟩⟩

instance : Sub Frac := ⟨fun a b => ⟨a.num * b.den - b.num * a.den, a.den * b.den⟩⟩

instance : Neg Frac := ⟨fun a => ⟨-a.num, a.den⟩⟩

instance : Mul Frac := ⟨fun a b => ⟨a.num * b.num, a.den * b.den⟩⟩

instance : Div Frac := ⟨fun a b =>
  let n := a.num * b.den
  let d := a.den * b.num
  if d < 0 then ⟨-n, -d⟩ else if d = 0 then ⟨0, 1⟩ else ⟨n, d⟩⟩

instance : LE Frac := ⟨fun a b => a.num * b.den ≤ b.num * a.den⟩

instance : LT Frac := ⟨fun a b => a.num * b.den < b.num * a.den⟩

instance (a b : Frac) : Decidable (a ≤ b) :=
  inferInstanceAs (Decidable (a.num * b.den ≤ b.num * a.den))

instance (a b : Frac) : Decidable (a < b) :=
  inferInstanceAs (Decidable (a.num * b.den < b.num * a.den))

instance : Max Frac := ⟨fun a b => if a ≤ b then b else a⟩

instance : Min Frac := ⟨fun a b => if a ≤ b then a else b⟩

/-- Value equality of fractions (Python `==` on floats compares values,
not representations). -/
def Frac.eqv (a b : Frac) : Prop := a.num * b.den = b.num * a.den

instance (a b : Frac) : Decidable (Frac.eqv a b) :=
  inferInstanceAs (Decidable (a.num * b.den = b.num * a.den))

/-- Floor of a fraction with positive denominator. -/
def Frac.floor (q : Frac) : Int := q.num.fdiv q.den

/-- Ceiling of a fraction with positive denominator. -/
def Frac.ceil (q : Frac) : Int := -((-q.num).fdiv q.den)

/-- Rational value of a fraction (used only in proofs, to borrow order
reasoning from `ℚ`). -/
def Frac.val (q : Frac) : ℚ := (q.num : ℚ) / (q.den : ℚ)

/-- JSON scalar / array values as they appear inside a spriteops op.
Document-level structure (frames, overrides, canvas, palette) is modelled
by dedicated structures below; op arguments stay dynamically typed. -/
inductive JVal where
  | jint (n : Int)
  | jstr (s : String)
  | jrat (q : Frac)
  | jlist (xs : List JVal)

/-- Python truthiness-free helper: does the string start with `#`
(char-level stand-in for `str.startswith("#")`). -/
def starts_with_hash (s : String) : Bool :=
  match s.data with
  | c :: _ => c = '#'
  | [] => false

/-- Python `s.lower()` (char-level). -/
def lower_str (s : String) : String := String.mk (s.data.map Char.toLower)

/-- Characters Python `int(...)` strips from both ends. -/
def is_py_space (c : Char) : Bool := c = ' ' ∨ c = '\t' ∨ c = '\n' ∨ c = '\r'

/-- Python `s.strip()` restricted to the whitespace `int(...)` accepts. -/
def py_strip (s : String) : String :=
  String.mk (((s.data.dropWhile is_py_space).reverse.dropWhile is_py_space).reverse)

/-- Python `s.split(",")` (char-level; empty pieces are kept). -/
def split_comma_chars : List Char → List Char → List String
  | [], acc => [String.mk acc.reverse]
  | c :: rest, acc =>
    if c = ',' then String.mk acc.reverse :: split_comma_chars rest []
    else split_comma_chars rest (c :: acc)

/-- Python `s.split(",")`. -/
def split_comma (s : String) : List String := split_comma_chars s.data []

/-- Python list read `l[i]`: nonnegative indices from the front, negative
indices from the end, `IndexError` otherwise. -/
def pyIndex {α : Type} (l : List α) (i : Int) : Except String α :=
  if h : 0 ≤ i ∧ i < l.length then
    .ok (l.get ⟨i.toNat, by omega⟩)
  else if h2 : i < 0 ∧ 0 ≤ i + l.length then
    .ok (l.get ⟨(i + l.length).toNat, by omega⟩)
  else
    .error "IndexError: list index out of range"

/-- Python list write `l[i] = v`: same index semantics as `pyIndex`. -/
def pySet {α : Type} (l : List α) (i : Int) (v : α) : Except String (List α) :=
  if 0 ≤ i ∧ i < l.length then
    .ok (l.set i.toNat v)
  else if i < 0 ∧ 0 ≤ i + l.length then
    .ok (l.set (i + l.length).toNat v)
  else
    .error "IndexError: list assignment index out of range"

/-- Python `range(a, b)` as a list of `Int`. -/
def rangeI (a b : Int) : List Int :=
  (List.range (b - a).toNat).map (fun n : Nat => a + (n : Int))

/-- Python `int(x)` applied to a float: truncation toward zero. -/
def pyTrunc (q : Frac) : Int :=
  if 0 ≤ q then q.floor else -((-q).floor)

/-- Python 3 `round(x)` on a float: round half to even. -/
def pyRound (q : Frac) : Int :=
  let f := q.floor
  let r := q - (f : Frac)
  if r < (1 : Frac)/2 then f
  else if (1 : Frac)/2 < r then f + 1
  else if f % 2 = 0 then f else f + 1

/-- Round half away from zero (the rounding contract stated by the spec,
used when rendering the spec's own words into a reference function). -/
def roundAway (q : Frac) : Int :=
  if 0 ≤ q then (q + (1 : Frac)/2).floor else -((-q + (1 : Frac)/2).floor)

/-- Python `int(s)` on a string: optional sign followed by digits. -/
def pyParseInt (s : String) : Except String Int :=
  let t := (py_strip s).data
  let neg := match t with
    | '-' :: _ => true
    | _ => false
  let core := match t with
    | '-' :: rest => rest
    | '+' :: rest => rest
    | rest => rest
  if core.length > 0 ∧ core.all Char.isDigit then
    let n : Int := core.foldl (fun acc c => acc * 10 + (c.toNat - 48 : Int)) 0
    .ok (if neg then -n else n)
  else
    .error "ValueError: invalid literal for int"

/-- Python `int(x)` on a dynamically typed op argument. -/
def pyToInt : JVal → Except String Int
  | .jint n => .ok n
  | .jrat q => .ok (pyTrunc q)
  | .jstr s => pyParseInt s
  | .jlist _ => .error "TypeError: int() argument"

/-- Python `float(x)` on a dynamically typed op argument (integer-valued
strings are accepted; other strings are rejected by this model). -/
def pyToFloat : JVal → Except String Frac
  | .jint n => .ok (n : Frac)
  | .jrat q => .ok q
  | .jstr s => do
    let n ← pyParseInt s
    pure (n : Frac)
  | .jlist _ => .error "TypeError: float() argument"

/-- Python `str(x)` on a dynamically typed op argument (total; layer and
side names in documents are strings, for which this is exact). -/
def pyStr : JVal → String
  | .jstr s => s
  | .jint n => toString n
  | .jrat q => toString q.num ++ "/" ++ toString q.den
  | .jlist _ => "[...]"

/-- Bounds check from `raster.py`: `0 <= x < w and 0 <= y < h`. -/
def in_bounds (x y w h : Int) : Prop :=
  0 ≤ x ∧ x < w ∧ 0 ≤ y ∧ y < h

instance (x y w h : Int) : Decidable (in_bounds x y w h) := by
  unfold in_bounds
  infer_instance

/-- Guarded buffer write used throughout the primitives:
`if in_bounds(x, y, w, h): buf[y * w + x] = v`. -/
def put (buf : List Int) (w h x y v : Int) : Except String (List Int) :=
  if in_bounds x y w h then pySet buf (y * w + x) v else .ok buf

/-- Loop body of `draw_line` (Bresenham).  The Python loop is
`while True` with a break at `(x1, y1)`; every iteration advances `x` or
`y` one step toward the endpoint without overshooting, so the loop runs
exactly `|Δx| + |Δy|` iterations and the fuel below is never exhausted. -/
def draw_line_loop (w h color x1 y1 sx sy dx dy : Int) :
    Nat → List Int → Int → Int → Int → Except String (List Int)
  | 0, buf, _, _, _ => .ok buf
  | fuel + 1, buf, x, y, err => do
    let buf ← put buf w h x y color
    if x = x1 ∧ y = y1 then
      .ok buf
    else
      let e2 := 2 * err
      let p := if e2 ≥ dy then (err + dy, x + sx) else (err, x)
      let q := if e2 ≤ dx then (p.1 + dx, y + sy) else (p.1, y)
      draw_line_loop w h color x1 y1 sx sy dx dy fuel buf p.2 q.2 q.1

/-- Bresenham line, `raster.draw_line`. -/
def draw_line (buf : List Int) (w h color x0 y0 x1 y1 : Int) : Except String (List Int) :=
  let dx : Int := (x1 - x0).natAbs
  let dy : Int := -((y1 - y0).natAbs : Int)
  let sx : Int := if x0 < x1 then 1 else -1
  let sy : Int := if y0 < y1 then 1 else -1
  draw_line_loop w h color x1 y1 sx sy dx dy
    ((x1 - x0).natAbs + (y1 - y0).natAbs + 1) buf x0 y0 (dx + dy)

/-- Filled ellipse, `raster.ellipse_fill`.  `sqrtF` models `math.sqrt`
(its argument here is always in `[0, 1]`). -/
def ellipse_fill (sqrtF : Frac → Frac) (buf : List Int) (w h color cx cy rx ry : Int) :
    Except String (List Int) :=
  if rx ≤ 0 ∨ ry ≤ 0 then
    if rx = 0 ∧ ry = 0 then put buf w h cx cy color else .ok buf
  else
    (rangeI (cy - ry) (cy + ry + 1)).foldlM (fun b yy =>
      if 0 ≤ yy ∧ yy < h then
        let dy : Frac := ((yy - cy : Int) : Frac) / (ry : Frac)
        let inside : Frac := 1 - dy * dy
        if inside < 0 then .ok b
        else
          let span : Int := ((rx : Frac) * sqrtF inside).floor
          (rangeI (cx - span) (cx + span + 1)).foldlM (fun b2 xx =>
            if 0 ≤ xx ∧ xx < w then pySet b2 (yy * w + xx) color else .ok b2) b
      else .ok b) buf

/-- Thick line, `raster.draw_thick_line`.  With `thickness ≥ 2` the
divisions `thickness / 2` below agree with Python `thickness // 2`. -/
def draw_thick_line (sqrtF : Frac → Frac) (buf : List Int)
    (w h color x0 y0 x1 y1 thickness : Int) : Except String (List Int) :=
  if thickness ≤ 1 then draw_line buf w h color x0 y0 x1 y1
  else
    let dx := x1 - x0
    let dy := y1 - y0
    let dist : Frac := sqrtF ((dx * dx + dy * dy : Int) : Frac)
    if Frac.eqv dist 0 then
      ellipse_fill sqrtF buf w h color x0 y0 (thickness / 2) (thickness / 2)
    else
      let steps : Int := pyTrunc (dist * 2)
      (rangeI 0 (steps + 1)).foldlM (fun b i =>
        let t : Frac := (i : Frac) / (steps : Frac)
        let tx : Frac := (x0 : Frac) + t * (dx : Frac)
        let ty : Frac := (y0 : Frac) + t * (dy : Frac)
        ellipse_fill sqrtF b w h color (pyRound tx) (pyRound ty)
          (thickness / 2) (thickness / 2)) buf

/-- Capsule, `raster.capsule_fill`. -/
def capsule_fill (sqrtF : Frac → Frac) (buf : List Int) (w h color x0 y0 x1 y1 r : Int) :
    Except String (List Int) :=
  draw_thick_line sqrtF buf w h color x0 y0 x1 y1 (r * 2)

/-- Rectangle outline, `raster.rect_stroke`. -/
def rect_stroke (buf : List Int) (w h color x y rw rh : Int) : Except String (List Int) := do
  let b1 ← (rangeI 0 rw).foldlM (fun b i => do
    let b ← put b w h (x + i) y color
    put b w h (x + i) (y + rh - 1) color) buf
  (rangeI 0 rh).foldlM (fun b j => do
    let b ← put b w h x (y + j) color
    put b w h (x + rw - 1) (y + j) color) b1

/-- Filled rectangle, `raster.rect_fill`. -/
def rect_fill (buf : List Int) (w h color x y rw rh : Int) : Except String (List Int) :=
  (rangeI y (y + rh)).foldlM (fun b yy =>
    if 0 ≤ yy ∧ yy < h then
      (rangeI x (x + rw)).foldlM (fun b2 xx =>
        if 0 ≤ xx ∧ xx < w then pySet b2 (yy * w + xx) color else .ok b2) b
    else .ok b) buf

/-- The four-way symmetric plot of `raster.ellipse_stroke`. -/
def ellipse_plot (buf : List Int) (w h color cx cy px py : Int) : Except String (List Int) := do
  let b ← put buf w h (cx + px) (cy + py) color
  let b ← put b w h (cx - px) (cy + py) color
  let b ← put b w h (cx + px) (cy - py) color
  put b w h (cx - px) (cy - py) color

/-- Region-1 loop (`while px < py`) of `raster.ellipse_stroke`.  Returns
the buffer together with the final `x, y, px, py`. -/
def ellipse_stroke_loop1 (w h color cx cy rx2 ry2 two_rx2 two_ry2 : Int)
    (hry : 0 < two_ry2) (hrx : 0 ≤ two_rx2) (buf : List Int) (x y p px py : Int) :
    Except String (List Int × Int × Int × Int × Int) :=
  if hlt : px < py then
    let x' := x + 1
    let px' := px + two_ry2
    let y' := if p < 0 then y else y - 1
    let py' := if p < 0 then py else py - two_rx2
    let p' := if p < 0 then p + ry2 + px' else p + ry2 + px' - (py - two_rx2)
    match ellipse_plot buf w h color cx cy x' y' with
    | .error e => .error e
    | .ok buf' =>
      ellipse_stroke_loop1 w h color cx cy rx2 ry2 two_rx2 two_ry2 hry hrx
        buf' x' y' p' px' py'
  else
    .ok (buf, x, y, px, py)
termination_by (py - px).toNat
decreasing_by
  split <;> omega

/-- Region-2 loop (`while y > 0`) of `raster.ellipse_stroke`. -/
def ellipse_stroke_loop2 (w h color cx cy rx2 ry2 two_rx2 two_ry2 : Int)
    (buf : List Int) (x y p px py : Int) : Except String (List Int) :=
  if hy : 0 < y then
    let y' := y - 1
    let py' := py - two_rx2
    let x' := if 0 < p then x else x + 1
    let px' := if 0 < p then px else px + two_ry2
    let p' := if 0 < p then p + rx2 - py' else p + rx2 - py' + (px + two_ry2)
    match ellipse_plot buf w h color cx cy x' y' with
    | .error e => .error e
    | .ok buf' =>
      ellipse_stroke_loop2 w h color cx cy rx2 ry2 two_rx2 two_ry2 buf' x' y' p' px' py'
  else .ok buf
termination_by y.toNat
decreasing_by omega

/-- Ellipse outline (midpoint algorithm), `raster.ellipse_stroke`. -/
def ellipse_stroke (buf : List Int) (w h color cx cy rx ry : Int) : Except String (List Int) :=
  if hr : rx ≤ 0 ∨ ry ≤ 0 then .ok buf
  else
    let rx2 := rx * rx
    let ry2 := ry * ry
    let two_rx2 := 2 * rx2
    let two_ry2 := 2 * ry2
    let py := two_rx2 * ry
    match ellipse_plot buf w h color cx cy 0 ry with
    | .error e => .error e
    | .ok buf1 =>
      let p := pyRound ((ry2 : Frac) - (rx2 : Frac) * (ry : Frac) + (rx2 : Frac) / 4)
      match ellipse_stroke_loop1 w h color cx cy rx2 ry2 two_rx2 two_ry2
          (by have h1 : 0 < ry := by omega
              have h2 : 0 < ry * ry := mul_pos h1 h1
              omega)
          (by have h2 : 0 ≤ rx * rx := mul_self_nonneg rx
              omega)
          buf1 0 ry p 0 py with
      | .error e => .error e
      | .ok (buf2, x2, y2, px2, py2) =>
        let p2 := pyRound ((ry2 : Frac) * ((x2 : Frac) + 1/2) * ((x2 : Frac) + 1/2)
          + (rx2 : Frac) * ((y2 : Frac) - 1) * ((y2 : Frac) - 1) - (rx2 : Frac) * (ry2 : Frac))
        ellipse_stroke_loop2 w h color cx cy rx2 ry2 two_rx2 two_ry2 buf2 x2 y2 p2 px2 py2

/-- Radial gradient, `raster.gradient_radial`. -/
def gradient_radial (sqrtF : Frac → Frac) (buf : List Int) (w h : Int)
    (palette_indices : List Int) (cx cy r : Int) : Except String (List Int) :=
  if palette_indices = [] ∨ r ≤ 0 then .ok buf
  else
    (rangeI (cy - r) (cy + r + 1)).foldlM (fun b yy =>
      (rangeI (cx - r) (cx + r + 1)).foldlM (fun b2 xx =>
        if in_bounds xx yy w h then
          let dist := sqrtF (((xx - cx) * (xx - cx) + (yy - cy) * (yy - cy) : Int) : Frac)
          if dist ≤ (r : Frac) then do
            let t := dist / (r : Frac)
            let idx := pyTrunc (t * ((palette_indices.length : Frac) - 1))
            let v ← pyIndex palette_indices idx
            pySet b2 (yy * w + xx) v
          else .ok b2
        else .ok b2) b) buf

/-- Linear gradient, `raster.gradient_linear`. -/
def gradient_linear (buf : List Int) (w h : Int) (palette_indices : List Int)
    (x0 y0 x1 y1 : Int) : Except String (List Int) :=
  if palette_indices = [] then .ok buf
  else
    let dx := x1 - x0
    let dy := y1 - y0
    let len_sq := dx * dx + dy * dy
    if len_sq = 0 then .ok buf
    else
      (rangeI 0 h).foldlM (fun b y =>
        (rangeI 0 w).foldlM (fun b2 x => do
          let t0 : Frac := (((x - x0) * dx + (y - y0) * dy : Int) : Frac) / (len_sq : Frac)
          let t := max 0 (min 1 t0)
          let idx := pyTrunc (t * ((palette_indices.length : Frac) - 1))
          let v ← pyIndex palette_indices idx
          pySet b2 (y * w + x) v) b) buf

/-- Colour replacement, `raster.color_replace`.  The Python guard
`if mask_layer and mask_layer[i] == 0` treats a missing or empty mask as
falsy. -/
def color_replace (buf : List Int) (w h old_c new_c : Int)
    (mask_layer : Option (List Int)) : Except String (List Int) :=
  (rangeI 0 (w * h)).foldlM (fun b i =>
    let body : Except String (List Int) := do
      let v ← pyIndex b i
      if v = old_c then pySet b i new_c else .ok b
    match mask_layer with
    | some m =>
      if m ≠ ([] : List Int) then do
        let mv ← pyIndex m i
        if mv = 0 then .ok b else body
      else body
    | none => body) buf

/-- Masked clear, `raster.mask_layer_fn`. -/
def mask_layer_fn (buf mask : List Int) : Except String (List Int) :=
  (rangeI 0 buf.length).foldlM (fun b i => do
    let mv ← pyIndex mask i
    if mv = 0 then pySet b i 0 else .ok b) buf

/-- One scan of the outline dilation: indices of zero pixels of `work`
with a non-zero 4-neighbour, in row-major order (shared loop body of
`raster.outline_layer` and `layers.outline_from_mask`). -/
def outline_scan (work : List Int) (w h : Int) : Except String (List Int) :=
  (rangeI 0 h).foldlM (fun acc y =>
    (rangeI 0 w).foldlM (fun acc2 x => do
      let idx := y * w + x
      let wv ← pyIndex work idx
      if wv ≠ 0 then .ok acc2
      else do
        let touch ← [((1 : Int), (0 : Int)), (-1, 0), (0, 1), (0, -1)].foldlM
          (fun t dxy => do
            if t then pure t
            else
              let nx := x + dxy.1
              let ny := y + dxy.2
              if 0 ≤ nx ∧ nx < w ∧ 0 ≤ ny ∧ ny < h then do
                let nv ← pyIndex work (ny * w + nx)
                pure (nv != 0)
              else pure false) false
        if touch then .ok (acc2 ++ [idx]) else .ok acc2) acc) []

/-- Application of one dilation pass: paint the found indices into `dest`
and mark them in `work`. -/
def outline_apply (dest work : List Int) (add : List Int) (color : Int) :
    Except String (List Int × List Int) :=
  add.foldlM (fun dw idx => do
    let d ← pySet dw.1 idx color
    let wk ← pySet dw.2 idx 1
    pure (d, wk)) (dest, work)

/-- The `for _ in range(thickness)` dilation loop shared (verbatim in the
source) by `raster.outline_layer` and `layers.outline_from_mask`. -/
def outline_passes (dest work : List Int) (w h color : Int) :
    Nat → Except String (List Int)
  | 0 => .ok dest
  | n + 1 => do
    let add ← outline_scan work w h
    let dw ← outline_apply dest work add color
    outline_passes dw.1 dw.2 w h color n

/-- Self-outline of a buffer, `raster.outline_layer`. -/
def outline_layer (buf : List Int) (w h thickness color : Int) : Except String (List Int) :=
  let mask := buf.map (fun v => if v ≠ 0 then (1 : Int) else 0)
  outline_passes buf mask w h color thickness.toNat

/-- Quadratic Bezier, `raster.draw_bezier`. -/
def draw_bezier (buf : List Int) (w h color x0 y0 cx cy x1 y1 : Int) :
    Except String (List Int) :=
  let steps : Nat := (max (max (max (max (x0 - x1).natAbs (y0 - y1).natAbs)
    (x0 - cx).natAbs) (y0 - cy).natAbs) 10) * 2
  (List.range (steps + 1)).foldlM (fun b i =>
    let t : Frac := (i : Frac) / (steps : Frac)
    let tx : Frac := (1 - t) * (1 - t) * (x0 : Frac) + 2 * (1 - t) * t * (cx : Frac)
      + t * t * (x1 : Frac)
    let ty : Frac := (1 - t) * (1 - t) * (y0 : Frac) + 2 * (1 - t) * t * (cy : Frac)
      + t * t * (y1 : Frac)
    put b w h (pyRound tx) (pyRound ty) color) buf

/-- Dithered rectangle, `raster.dither_rect`. -/
def dither_rect (buf : List Int) (w h color x y rw rh : Int) (pattern : String) :
    Except String (List Int) :=
  (rangeI y (y + rh)).foldlM (fun b yy =>
    if 0 ≤ yy ∧ yy < h then
      (rangeI x (x + rw)).foldlM (fun b2 xx =>
        if 0 ≤ xx ∧ xx < w then
          if pattern = "checker" then
            if (xx + yy) % 2 = 0 then pySet b2 (yy * w + xx) color else .ok b2
          else if pattern = "dots" then
            if xx % 2 = 0 ∧ yy % 2 = 0 then pySet b2 (yy * w + xx) color else .ok b2
          else .ok b2
        else .ok b2) b
    else .ok b) buf

/-- Edge crossings of the scanline `y` with the polygon, `raster.draw_poly`
(inner node loop; `j` is the predecessor index, starting at the last). -/
def poly_nodes (points : List (Frac × Frac)) (y : Int) : List Frac :=
  (List.range points.length).filterMap (fun i =>
    let j := if i = 0 then points.length - 1 else i - 1
    let pi := points.getD i (0, 0)
    let pj := points.getD j (0, 0)
    if ((pi.2 < (y : Frac) ∧ (y : Frac) ≤ pj.2) ∨ (pj.2 < (y : Frac) ∧ (y : Frac) ≤ pi.2))
        ∧ ¬ Frac.eqv pj.2 pi.2 then
      some (pi.1 + ((y : Frac) - pi.2) / (pj.2 - pi.2) * (pj.1 - pi.1))
    else none)

/-- Consecutive pairs `(nodes[i], nodes[i+1])` for even `i`, dropping an
unpaired tail, as in the fill loop of `raster.draw_poly`. -/
def pyPairs {α : Type} : List α → List (α × α)
  | a :: b :: rest => (a, b) :: pyPairs rest
  | _ => []

/-- Scanline polygon fill, `raster.draw_poly`. -/
def draw_poly (buf : List Int) (w h color : Int) (points : List (Frac × Frac)) :
    Except String (List Int) :=
  match points with
  | [] => .ok buf
  | p0 :: rest =>
    let ys := (p0 :: rest).map Prod.snd
    let min_y := pyTrunc (ys.foldl min p0.2)
    let max_y := pyTrunc (ys.foldl max p0.2)
    (rangeI min_y (max_y + 1)).foldlM (fun b y =>
      if 0 ≤ y ∧ y < h then
        let nodes := (poly_nodes (p0 :: rest) y).mergeSort (fun a b => decide (a ≤ b))
        (pyPairs nodes).foldlM (fun b2 pr =>
          (rangeI pr.1.ceil (pr.2.floor + 1)).foldlM (fun b3 x =>
            if 0 ≤ x ∧ x < w then pySet b3 (y * w + x) color else .ok b3) b2) b
      else .ok b) buf

/-- Breadth-first loop of `raster.flood_fill` over the pixel queue.
Termination: each recolouring strictly decreases the number of pixels
equal to `target` (the fill colour differs from `target`), and every
other step shortens the queue. -/
def flood_loop (w h target color : Int) (hne : target ≠ color) :
    List Int → List (Int × Int) → Except String (List Int)
  | buf, [] => .ok buf
  | buf, (x, y) :: rest =>
    if hb : in_bounds x y w h then
      match hget : pyIndex buf (y * w + x) with
      | .error e => .error e
      | .ok v =>
        if hv : v = target then
          match hset : pySet buf (y * w + x) color with
          | .error e => .error e
          | .ok buf' =>
            flood_loop w h target color hne buf'
              (rest ++ [(x + 1, y), (x - 1, y), (x, y + 1), (x, y - 1)])
        else flood_loop w h target color hne buf rest
    else flood_loop w h target color hne buf rest
termination_by buf q => 5 * buf.count target + q.length
decreasing_by
  · have hnn : 0 ≤ y * w + x := by
      obtain ⟨h1, h2, h3, h4⟩ := hb
      have : 0 ≤ y * w := mul_nonneg h3 (by omega)
      omega
    have hidx : y * w + x < (buf.length : Int) := by
      unfold pyIndex at hget
      split at hget
      · omega
      · split at hget
        · omega
        · exact absurd hget (by simp)
    have hbuf' : buf' = buf.set (y * w + x).toNat color := by
      unfold pySet at hset
      rw [if_pos ⟨hnn, hidx⟩] at hset
      exact ((Except.ok.injEq _ _).mp hset).symm
    have hlen : (y * w + x).toNat < buf.length := by omega
    have hvval : buf[(y * w + x).toNat] = target := by
      unfold pyIndex at hget
      rw [dif_pos ⟨hnn, hidx⟩] at hget
      have h5 := (Except.ok.injEq _ _).mp hget
      rw [← hv, ← h5]
      simp [List.get_eq_getElem]
    have hcount := List.count_set color target buf (y * w + x).toNat hlen
    have hc2 : (color == target) = false := by
      simp only [beq_eq_false_iff_ne, ne_eq]
      exact fun hcc => hne hcc.symm
    simp only [hvval, hc2, beq_self_eq_true, if_true, Bool.false_eq_true, if_false] at hcount
    have hpos : 0 < buf.count target := by
      apply List.count_pos_iff.mpr
      have hmem : buf[(y * w + x).toNat] ∈ buf := List.getElem_mem hlen
      rw [hvval] at hmem
      exact hmem
    rw [← hbuf'] at hcount
    simp only [List.length_append, List.length_cons, List.length_nil]
    omega
  · simp only [List.length_cons]
    omega
  · simp only [List.length_cons]
    omega

/-- Flood fill, `raster.flood_fill`. -/
def flood_fill (buf : List Int) (w h color sx sy : Int) : Except String (List Int) :=
  if in_bounds sx sy w h then
    match pyIndex buf (sy * w + sx) with
    | .error e => .error e
    | .ok target =>
      if htc : target = color then .ok buf
      else flood_loop w h target color htc buf [(sx, sy)]
  else .ok buf

/-- Lookup in the insertion-ordered layer dictionary (`layers.get(name)`). -/
def aget (layers : List (String × List Int)) (k : String) : Option (List Int) :=
  (layers.find? (fun kv => kv.1 == k)).map Prod.snd

/-- Update/insert in the layer dictionary (`layers[k] = v`), keeping the
dict's own insertion order. -/
def aset (layers : List (String × List Int)) (k : String) (v : List Int) :
    List (String × List Int) :=
  if layers.any (fun kv => kv.1 == k) then
    layers.map (fun kv => if kv.1 == k then (kv.1, v) else kv)
  else layers ++ [(k, v)]

/-- The inner copy loop of `layers.merge_layers`: non-zero pixels of `src`
overwrite `out`. -/
def overlay (out src : List Int) : Except String (List Int) :=
  src.enum.foldlM (fun acc iv =>
    if iv.2 ≠ 0 then pySet acc (iv.1 : Int) iv.2 else .ok acc) out

/-- Merged view, `layers.merge_layers`: overlay every layer in insertion
order onto a zero buffer. -/
def merge_layers (layers : List (String × List Int)) (layer_order : List String)
    (w h : Int) : Except String (List Int) :=
  layer_order.foldlM (fun out lname =>
    match aget layers lname with
    | none => .ok out
    | some src => overlay out src) (List.replicate (w * h).toNat 0)

/-- `layers.ensure_layer`: return the named buffer, creating it zero-filled
(and appending it to the order) when absent. -/
def ensure_layer (layers : List (String × List Int)) (layer_order : List String)
    (name : String) (w h : Int) : List Int × List (String × List Int) × List String :=
  match aget layers name with
  | some b => (b, layers, layer_order)
  | none =>
    let b := List.replicate (w * h).toNat 0
    (b, layers ++ [(name, b)], layer_order ++ [name])

/-- `layers.inset_fill_on_mask`. -/
def inset_fill_on_mask (dest mask : List Int) (w h color x y rw rh inset : Int) :
    Except String (List Int) :=
  let x0 := x + inset
  let y0 := y + inset
  let x1 := x + rw - inset - 1
  let y1 := y + rh - inset - 1
  (rangeI y0 (y1 + 1)).foldlM (fun d yy =>
    if 0 ≤ yy ∧ yy < h then
      (rangeI x0 (x1 + 1)).foldlM (fun d2 xx =>
        if 0 ≤ xx ∧ xx < w then do
          let idx := yy * w + xx
          let mv ← pyIndex mask idx
          if mv ≠ 0 then pySet d2 idx color else .ok d2
        else .ok d2) d
    else .ok d) dest

/-- `layers.outline_from_mask` (its pass loop is `outline_passes`, shared
verbatim with `raster.outline_layer` in the source). -/
def outline_from_mask (dest mask : List Int) (w h outline_color thickness : Int) :
    Except String (List Int) :=
  outline_passes dest mask w h outline_color thickness.toNat

/-- `layers.shade_band`: sided boundary shading with look-ahead
`thickness`; the side string is lowercased first; an unrecognised side
raises, but only when some masked pixel reaches the dispatch. -/
def shade_band (dest mask : List Int) (w h shade_color : Int) (side : String)
    (thickness : Int) : Except String (List Int) :=
  let side := lower_str side
  (rangeI 0 h).foldlM (fun d y =>
    (rangeI 0 w).foldlM (fun d2 x => do
      let idx := y * w + x
      let mv ← pyIndex mask idx
      if mv = 0 then .ok d2
      else
        if side = "right" then do
          let near ← (rangeI 1 (thickness + 1)).foldlM (fun nr t => do
            if nr then pure nr
            else
              let nx := x + t
              if nx ≥ w then pure true
              else do
                let v ← pyIndex mask (y * w + nx)
                pure (v == 0)) false
          if near then pySet d2 idx shade_color else .ok d2
        else if side = "bottom" then do
          let near ← (rangeI 1 (thickness + 1)).foldlM (fun nr t => do
            if nr then pure nr
            else
              let ny := y + t
              if ny ≥ h then pure true
              else do
                let v ← pyIndex mask (ny * w + x)
                pure (v == 0)) false
          if near then pySet d2 idx shade_color else .ok d2
        else if side = "top_left" then do
          let near ← (rangeI 1 (thickness + 1)).foldlM (fun nr t => do
            if nr then pure nr
            else
              if y - t < 0 then pure true
              else do
                let v ← pyIndex mask ((y - t) * w + x)
                if v = 0 then pure true
                else
                  if x - t < 0 then pure true
                  else do
                    let v2 ← pyIndex mask (y * w + (x - t))
                    pure (v2 == 0)) false
          if near then pySet d2 idx shade_color else .ok d2
        else if side = "edge" then do
          let boundary ← [((1 : Int), (0 : Int)), (-1, 0), (0, 1), (0, -1)].foldlM
            (fun bd dxy => do
              if bd then pure bd
              else
                let nx := x + dxy.1
                let ny := y + dxy.2
                if ¬ (0 ≤ nx ∧ nx < w ∧ 0 ≤ ny ∧ ny < h) then pure true
                else do
                  let v ← pyIndex mask (ny * w + nx)
                  pure (v == 0)) false
          if boundary then pySet d2 idx shade_color else .ok d2
        else .error ("shade_band side unsupported: " ++ side)) d) dest

/-- One step of the `noise_points` linear congruential generator:
`x ← (1103515245·x + 12345) & 0x7FFFFFFF` (the bitmask is reduction
mod 2³¹). -/
def lcg_next (x : Int) : Int := (1103515245 * x + 12345) % (2 ^ 31)

/-- The `for _ in range(count)` loop of `layers.noise_points`. -/
def noise_loop (eligible : List Nat) (color : Int) :
    Nat → List Int → Int → Except String (List Int)
  | 0, dest, _ => .ok dest
  | n + 1, dest, x => do
    let x' := lcg_next x
    let idx ← pyIndex eligible (x' % (eligible.length : Int))
    let dest' ← pySet dest (idx : Int) color
    noise_loop eligible color n dest' x'

/-- `layers.noise_points`: deterministic noise over the mask's non-zero
pixels (`w`, `h` are accepted and unused, as in the source). -/
def noise_points (dest mask : List Int) (w h color count seed : Int) :
    Except String (List Int) :=
  let eligible := (mask.enum.filter (fun p => p.2 ≠ 0)).map Prod.fst
  if eligible.length = 0 ∨ count ≤ 0 then .ok dest
  else noise_loop eligible color count.toNat dest (seed % (2 ^ 31))

/-- Specification of one op from the `OP_SPECS` table of `engine/ops.py`.
The source stores `requires_layer` as the string "0"/"1" (converted by
`int(...)` where used); it is kept here directly as the argument
position. -/
structure OpSpec where
  min_args : Nat
  max_args : Nat
  arg_types : List String
  requires_layer : Option Nat := none
  requires_seed : Bool := false

/-- The `OP_SPECS` table of `engine/ops.py` (`get_op_spec`). -/
def get_op_spec : String → Option OpSpec
  | "clear" => some ⟨1, 1, ["color_idx"], none, false⟩
  | "pixel" => some ⟨3, 3, ["color_idx", "int", "int"], none, false⟩
  | "layer_begin" => some ⟨1, 1, ["str"], none, false⟩
  | "layer_end" => some ⟨0, 0, [], none, false⟩
  | "layer_merge" => some ⟨0, 1, ["str"], none, false⟩
  | "copy_layer" => some ⟨2, 2, ["str", "str"], none, false⟩
  | "line" => some ⟨5, 5, ["color_idx", "int", "int", "int", "int"], none, false⟩
  | "thick_line" => some ⟨6, 6, ["color_idx", "int", "int", "int", "int", "int"], none, false⟩
  | "rect" => some ⟨5, 5, ["color_idx", "int", "int", "int", "int"], none, false⟩
  | "rect_fill" => some ⟨5, 5, ["color_idx", "int", "int", "int", "int"], none, false⟩
  | "rect_stroke" => some ⟨5, 5, ["color_idx", "int", "int", "int", "int"], none, false⟩
  | "ellipse_fill" => some ⟨5, 5, ["color_idx", "int", "int", "int", "int"], none, false⟩
  | "ellipse_stroke" => some ⟨5, 5, ["color_idx", "int", "int", "int", "int"], none, false⟩
  | "circle_fill" => some ⟨4, 4, ["color_idx", "int", "int", "int"], none, false⟩
  | "capsule_fill" => some ⟨6, 6, ["color_idx", "int", "int", "int", "int", "int"], none, false⟩
  | "poly_fill" => some ⟨3, 100, ["color_idx"], none, false⟩
  | "bezier" => some ⟨7, 7, ["color_idx", "int", "int", "int", "int", "int", "int"], none, false⟩
  | "fill" => some ⟨3, 3, ["color_idx", "int", "int"], none, false⟩
  | "inset_fill" => some ⟨6, 6, ["color_idx", "int", "int", "int", "int", "int"], none, false⟩
  | "dither_rect" => some ⟨5, 6, ["color_idx", "int", "int", "int", "int", "str"], none, false⟩
  | "gradient_radial" => some ⟨4, 4, ["str", "int", "int", "int"], none, false⟩
  | "gradient_linear" => some ⟨5, 5, ["str", "int", "int", "int", "int"], none, false⟩
  | "mask_layer" => some ⟨1, 1, ["layer_name"], some 0, false⟩
  | "outline" => some ⟨1, 2, ["color_idx", "int"], none, false⟩
  | "outline_layer" => some ⟨1, 2, ["color_idx", "int"], none, false⟩
  | "shade_band" => some ⟨3, 4, ["color_idx", "layer_name", "str", "int"], some 1, false⟩
  | "noise_points" => some ⟨4, 4, ["color_idx", "layer_name", "int", "int"], some 1, true⟩
  | "color_replace" => some ⟨2, 3, ["color_idx", "color_idx", "layer_name"], none, false⟩
  | "translate" => some ⟨2, 2, ["int", "int"], none, false⟩
  | "rotate" => some ⟨1, 3, ["float", "float", "float"], none, false⟩
  | "mirror" => some ⟨0, 1, ["str"], none, false⟩
  | _ => none

/-- Canvas dimensions (the validator's presence/integer checks on `w`/`h`
are discharged by this typed field representation). -/
structure Canvas where
  w : Int
  h : Int

/-- One entry of a derived frame's `overrides` list. -/
structure Override where
  op_index : Option Int := none
  op : Option JVal := none

/-- A frame of the document.  Absent JSON keys are `none`. -/
structure Frame where
  base : Option Int := none
  ops : Option (List JVal) := none
  overrides : Option (List Override) := none
  append_ops : Option (List JVal) := none

/-- An animation entry (only its `frames` list is validated). -/
structure Anim where
  frames : Option (List JVal) := none

/-- A spriteops document (fields the validator and resolver inspect). -/
structure Doc where
  format : String
  canvas : Option Canvas := none
  palette : Option (List String) := none
  frames : Option (List Frame) := none
  animations : List (String × Anim) := []

/-- Validation diagnostics, one constructor per error site of
`validate.py` that is reachable in this typed document model. -/
inductive Diag where
  | badFormat
  | missingCanvas
  | canvasNotPositive
  | missingPalette
  | emptyPalette
  | paletteColorNoHash (i : Nat)
  | missingFrames
  | emptyFrames
  | badAnimFrame (name : String)
  | baseNotEarlier (frame : Nat)
  | derivedNeedsOverrides (frame : Nat)
  | missingOps (frame : Nat)
  | opNotList (frame op : Nat)
  | emptyOp (frame op : Nat)
  | opNameNotString (frame op : Nat)
  | unknownOpName (frame op : Nat)
  | tooFewArgs (frame op : Nat)
  | tooManyArgs (frame op : Nat)
  | paletteIdxOOB (frame op : Nat)
  | undefinedLayer (frame op : Nat)
  | seedRequired (frame op : Nat)
deriving DecidableEq, Repr

/-- The layer name recorded by the validator's `layer_begin` tracking
(`isinstance(op, list) and len(op) >= 2 and op[0] == "layer_begin"`). -/
def layer_begin_name (op : JVal) : Option String :=
  match op with
  | .jlist (.jstr s :: b :: _) => if s = "layer_begin" then some (pyStr b) else none
  | _ => none

/-- `validate.validate_op`. -/
def validate_op (op : JVal) (op_idx : Nat) (palette_size : Nat)
    (defined_layers : List String) (frame_idx : Nat) (strict : Bool) : List Diag :=
  match op with
  | .jlist [] => [Diag.emptyOp frame_idx op_idx]
  | .jlist (nameV :: args) =>
    match nameV with
    | .jstr name =>
      match get_op_spec name with
      | none => [Diag.unknownOpName frame_idx op_idx]
      | some spec =>
        (if args.length < spec.min_args then [Diag.tooFewArgs frame_idx op_idx]
         else if args.length > spec.max_args then [Diag.tooManyArgs frame_idx op_idx]
         else [])
        ++ args.enum.filterMap (fun ia =>
          match spec.arg_types.get? ia.1 with
          | some t =>
            if t = "color_idx" then
              match ia.2 with
              | .jint n =>
                if n < 0 ∨ n ≥ (palette_size : Int) then
                  some (Diag.paletteIdxOOB frame_idx op_idx)
                else none
              | _ => none
            else none
          | none => none)
        ++ (match spec.requires_layer with
          | some k =>
            match args.get? k with
            | some a =>
              if pyStr a ∈ defined_layers then [] else [Diag.undefinedLayer frame_idx op_idx]
            | none => []
          | none => [])
        ++ (if spec.requires_seed ∧ strict ∧ name = "noise_points" ∧ args.length < 4 then
            [Diag.seedRequired frame_idx op_idx] else [])
    | _ => [Diag.opNameNotString frame_idx op_idx]
  | _ => [Diag.opNotList frame_idx op_idx]

/-- The per-op loop inside `validate.validate_frame`, threading the set of
layers defined so far (seeded with `base`). -/
def validate_ops (ops : List JVal) (op_idx : Nat) (palette_size : Nat)
    (defined_layers : List String) (frame_idx : Nat) (strict : Bool) : List Diag :=
  match ops with
  | [] => []
  | op :: rest =>
    validate_op op op_idx palette_size defined_layers frame_idx strict
    ++ validate_ops rest (op_idx + 1) palette_size
        (match layer_begin_name op with
         | some nm => defined_layers ++ [nm]
         | none => defined_layers) frame_idx strict

/-- `validate.validate_frame`. -/
def validate_frame (fr : Frame) (frame_idx : Nat) (palette_size : Nat)
    (strict : Bool) : List Diag :=
  match fr.base with
  | some b =>
    (if b ≥ (frame_idx : Int) then [Diag.baseNotEarlier frame_idx] else [])
    ++ (if fr.ops.isNone ∧ fr.overrides.isNone ∧ fr.append_ops.isNone then
        [Diag.derivedNeedsOverrides frame_idx] else [])
  | none =>
    match fr.ops with
    | none => [Diag.missingOps frame_idx]
    | some ops => validate_ops ops 0 palette_size ["base"] frame_idx strict

/-- `validate.validate_sprite`: accumulate every diagnostic of the
document, in source order. -/
def validate_sprite (doc : Doc) (strict : Bool) : List Diag :=
  (if doc.format ≠ "spriteops" then [Diag.badFormat] else [])
  ++ (match doc.canvas with
      | none => [Diag.missingCanvas]
      | some c => if c.w ≤ 0 ∨ c.h ≤ 0 then [Diag.canvasNotPositive] else [])
  ++ (match doc.palette with
      | none => [Diag.missingPalette]
      | some p =>
        if p.length = 0 then [Diag.emptyPalette]
        else p.enum.filterMap (fun ic =>
          if starts_with_hash ic.2 then none else some (Diag.paletteColorNoHash ic.1)))
  ++ (match doc.frames with
      | none => [Diag.missingFrames]
      | some fs =>
        if fs.length = 0 then [Diag.emptyFrames]
        else (fs.enum.map (fun ifr =>
          validate_frame ifr.2 ifr.1 (doc.palette.getD []).length strict)).join)
  ++ (doc.animations.map (fun na =>
      match na.2.frames with
      | none => []
      | some l => l.filterMap (fun f =>
        match f with
        | .jint n =>
          if n < 0 ∨ n ≥ ((doc.frames.getD []).length : Int) then
            some (Diag.badAnimFrame na.1)
          else none
        | _ => some (Diag.badAnimFrame na.1)))).join

/-- The override loop of `render.process_frame_inheritance`: an override
is applied when its `op_index` is present and `< len(base_ops)` (a Python
comparison that lets negative indices through to the list assignment). -/
def apply_overrides (base_ops : List JVal) (ovs : List Override) :
    Except String (List JVal) :=
  ovs.foldlM (fun acc ov =>
    match ov.op_index with
    | none => .ok acc
    | some idx =>
      if idx < (acc.length : Int) then do
        let opv ← (match ov.op with
          | some o => Except.ok o
          | none => Except.error "KeyError: op")
        pySet acc idx opv
      else .ok acc) base_ops

/-- Overrides-then-append part of the derived-frame branch of
`render.process_frame_inheritance`. -/
def after_base (base_ops : List JVal) (fr : Frame) : Except String (List JVal) := do
  let o ← match fr.overrides with
    | none => Except.ok base_ops
    | some ovs => apply_overrides base_ops ovs
  Except.ok (o ++ fr.append_ops.getD [])

/-- Body of the frame loop of `render.process_frame_inheritance`
(`processed` holds the resolved op lists of the earlier frames). -/
def resolve_step (processed : List (List JVal)) (fr : Frame) :
    Except String (List JVal) :=
  match fr.base with
  | some b => do
    let base_ops ← pyIndex processed b
    after_base base_ops fr
  | none =>
    match fr.ops with
    | some ops => .ok ops
    | none => .error "KeyError: ops"

/-- `render.process_frame_inheritance`. -/
def process_frame_inheritance (frames : List Frame) :
    Except String (List (List JVal)) :=
  frames.foldlM (fun processed fr => do
    let ops ← resolve_step processed fr
    Except.ok (processed ++ [ops])) []

/-- Interpreter state of `render.render_frame`: the layer dictionary, the
insertion-order list and the current layer name. -/
structure RState where
  layers : List (String × List Int)
  order : List String
  current : String

/-- Run a primitive on the (ensured) current layer and write the result
back, the common pattern of the drawing branches of `render.render_frame`. -/
def with_layer (st : RState) (w h : Int)
    (f : List Int → Except String (List Int)) : Except String RState := do
  let blo := ensure_layer st.layers st.order st.current w h
  let buf' ← f blo.1
  Except.ok ⟨aset blo.2.1 st.current buf', blo.2.2, st.current⟩

/-- Gradient index argument decoding of `render.render_frame`: a string is
split on commas and each piece parsed, anything else goes through
`int(...)` as a single index. -/
def parse_indices (v : JVal) : Except String (List Int) :=
  match v with
  | .jstr s => (split_comma s).mapM pyParseInt
  | v => do
    let n ← pyToInt v
    Except.ok [n]

/-- Point-pair decoding of the `poly_fill` branch (`float(op[i])`,
`float(op[i+1])`; an odd tail converts its x and then hits the missing
y subscript). -/
def parse_points : List JVal → Except String (List (Frac × Frac))
  | [] => .ok []
  | [x] => do
    let _ ← pyToFloat x
    .error "IndexError: list index out of range"
  | x :: y :: rest => do
    let px ← pyToFloat x
    let py' ← pyToFloat y
    let ps ← parse_points rest
    .ok ((px, py') :: ps)

/-- Horizontal mirror (`mirror` with axis `x`): copy the left half onto
the right, row by row. -/
def mirror_x (buf : List Int) (w h : Int) : Except String (List Int) :=
  (rangeI 0 h).foldlM (fun b y =>
    (rangeI 0 (w / 2)).foldlM (fun b2 x => do
      let v ← pyIndex b2 (y * w + x)
      pySet b2 (y * w + (w - 1 - x)) v) b) buf

/-- Vertical mirror (`mirror` with axis `y`). -/
def mirror_y (buf : List Int) (w h : Int) : Except String (List Int) :=
  (rangeI 0 w).foldlM (fun b x =>
    (rangeI 0 (h / 2)).foldlM (fun b2 y => do
      let v ← pyIndex b2 (y * w + x)
      pySet b2 ((h - 1 - y) * w + x) v) b) buf

/-- The `translate` branch: zero the layer, then copy shifted pixels from
the snapshot. -/
def translate_buf (buf : List Int) (w h dx dy : Int) : Except String (List Int) :=
  let old := buf
  let zeroed := buf.map (fun _ => (0 : Int))
  (rangeI 0 h).foldlM (fun b y =>
    (rangeI 0 w).foldlM (fun b2 x =>
      let sx := x - dx
      let sy := y - dy
      if 0 ≤ sx ∧ sx < w ∧ 0 ≤ sy ∧ sy < h then do
        let v ← pyIndex old (sy * w + sx)
        pySet b2 (y * w + x) v
      else .ok b2) b) zeroed

/-- The `rotate` branch: inverse-mapped nearest-neighbour sampling of the
snapshot (`cos_a`, `sin_a` are `math.cos`/`math.sin` of the angle in
radians, supplied by the caller). -/
def rotate_buf (buf : List Int) (w h : Int) (cos_a sin_a cx cy : Frac) :
    Except String (List Int) :=
  let old := buf
  let zeroed := buf.map (fun _ => (0 : Int))
  (rangeI 0 h).foldlM (fun b (y : Int) =>
    (rangeI 0 w).foldlM (fun b2 (x : Int) =>
      let tx : Frac := (x : Frac) - cx
      let ty : Frac := (y : Frac) - cy
      let sx := pyRound (tx * cos_a + ty * sin_a + cx)
      let sy := pyRound (-tx * sin_a + ty * cos_a + cy)
      if 0 ≤ sx ∧ sx < w ∧ 0 ≤ sy ∧ sy < h then do
        let v ← pyIndex old (sy * w + sx)
        pySet b2 (y * w + x) v
      else .ok b2) b) zeroed

/-- One dispatch step of `render.render_frame`.  `sqrtF` models
`math.sqrt`; `cosF`/`sinF` model `math.cos(math.radians(·))` and
`math.sin(math.radians(·))` applied to the angle argument in degrees. -/
def exec_op (sqrtF cosF sinF : Frac → Frac) (w h : Int) (st : RState) (op : JVal) :
    Except String RState :=
  match op with
  | .jlist [] => .error "IndexError: list index out of range"
  | .jlist (nameV :: args) =>
    match nameV with
    | .jstr name =>
      if name = "clear" then
        match args with
        | a1 :: _ => do
          let c ← pyToInt a1
          Except.ok ⟨st.layers.map (fun kv => (kv.1, List.replicate (w * h).toNat c)),
            st.order, st.current⟩
        | _ => .error "IndexError: list index out of range"
      else if name = "layer_begin" then
        match args with
        | a1 :: _ =>
          let cur := pyStr a1
          let blo := ensure_layer st.layers st.order cur w h
          Except.ok ⟨blo.2.1, blo.2.2, cur⟩
        | _ => .error "IndexError: list index out of range"
      else if name = "layer_end" then
        Except.ok ⟨st.layers, st.order, "base"⟩
      else if name = "layer_merge" then do
        let target := match args with
          | a1 :: _ => pyStr a1
          | [] => "base"
        let m ← merge_layers st.layers st.order w h
        Except.ok ⟨[(target, m)], [target], target⟩
      else if name = "pixel" then
        match args with
        | a1 :: a2 :: a3 :: _ => do
          let c ← pyToInt a1
          let x ← pyToInt a2
          let y ← pyToInt a3
          with_layer st w h (fun buf =>
            if in_bounds x y w h then pySet buf (y * w + x) c else .ok buf)
        | _ => .error "ValueError: not enough values to unpack"
      else if name = "line" then
        match args with
        | a1 :: a2 :: a3 :: a4 :: a5 :: _ => do
          let c ← pyToInt a1
          let x0 ← pyToInt a2
          let y0 ← pyToInt a3
          let x1 ← pyToInt a4
          let y1 ← pyToInt a5
          with_layer st w h (fun buf => draw_line buf w h c x0 y0 x1 y1)
        | _ => .error "ValueError: not enough values to unpack"
      else if name = "thick_line" then
        match args with
        | a1 :: a2 :: a3 :: a4 :: a5 :: a6 :: _ => do
          let c ← pyToInt a1
          let x0 ← pyToInt a2
          let y0 ← pyToInt a3
          let x1 ← pyToInt a4
          let y1 ← pyToInt a5
          let t ← pyToInt a6
          with_layer st w h (fun buf => draw_thick_line sqrtF buf w h c x0 y0 x1 y1 t)
        | _ => .error "ValueError: not enough values to unpack"
      else if name = "capsule_fill" then
        match args with
        | a1 :: a2 :: a3 :: a4 :: a5 :: a6 :: _ => do
          let c ← pyToInt a1
          let x0 ← pyToInt a2
          let y0 ← pyToInt a3
          let x1 ← pyToInt a4
          let y1 ← pyToInt a5
          let r ← pyToInt a6
          with_layer st w h (fun buf => capsule_fill sqrtF buf w h c x0 y0 x1 y1 r)
        | _ => .error "ValueError: not enough values to unpack"
      else if name = "rect" then
        match args with
        | a1 :: a2 :: a3 :: a4 :: a5 :: _ => do
          let c ← pyToInt a1
          let x ← pyToInt a2
          let y ← pyToInt a3
          let rw ← pyToInt a4
          let rh ← pyToInt a5
          with_layer st w h (fun buf => rect_stroke buf w h c x y rw rh)
        | _ => .error "ValueError: not enough values to unpack"
      else if name = "rect_fill" then
        match args with
        | a1 :: a2 :: a3 :: a4 :: a5 :: _ => do
          let c ← pyToInt a1
          let x ← pyToInt a2
          let y ← pyToInt a3
          let rw ← pyToInt a4
          let rh ← pyToInt a5
          with_layer st w h (fun buf => rect_fill buf w h c x y rw rh)
        | _ => .error "ValueError: not enough values to unpack"
      else if name = "rect_stroke" then
        match args with
        | a1 :: a2 :: a3 :: a4 :: a5 :: _ => do
          let c ← pyToInt a1
          let x ← pyToInt a2
          let y ← pyToInt a3
          let rw ← pyToInt a4
          let rh ← pyToInt a5
          with_layer st w h (fun buf => rect_stroke buf w h c x y rw rh)
        | _ => .error "ValueError: not enough values to unpack"
      else if name = "ellipse_fill" then
        match args with
        | a1 :: a2 :: a3 :: a4 :: a5 :: _ => do
          let c ← pyToInt a1
          let cx ← pyToInt a2
          let cy ← pyToInt a3
          let rx ← pyToInt a4
          let ry ← pyToInt a5
          with_layer st w h (fun buf => ellipse_fill sqrtF buf w h c cx cy rx ry)
        | _ => .error "ValueError: not enough values to unpack"
      else if name = "ellipse_stroke" then
        match args with
        | a1 :: a2 :: a3 :: a4 :: a5 :: _ => do
          let c ← pyToInt a1
          let cx ← pyToInt a2
          let cy ← pyToInt a3
          let rx ← pyToInt a4
          let ry ← pyToInt a5
          with_layer st w h (fun buf => ellipse_stroke buf w h c cx cy rx ry)
        | _ => .error "ValueError: not enough values to unpack"
      else if name = "gradient_radial" then
        match args with
        | a1 :: a2 :: a3 :: a4 :: _ => do
          let indices ← parse_indices a1
          let cx ← pyToInt a2
          let cy ← pyToInt a3
          let r ← pyToInt a4
          with_layer st w h (fun buf => gradient_radial sqrtF buf w h indices cx cy r)
        | _ => .error "ValueError: not enough values to unpack"
      else if name = "gradient_linear" then
        match args with
        | a1 :: a2 :: a3 :: a4 :: a5 :: _ => do
          let indices ← parse_indices a1
          let x0 ← pyToInt a2
          let y0 ← pyToInt a3
          let x1 ← pyToInt a4
          let y1 ← pyToInt a5
          with_layer st w h (fun buf => gradient_linear buf w h indices x0 y0 x1 y1)
        | _ => .error "ValueError: not enough values to unpack"
      else if name = "color_replace" then
        match args with
        | a1 :: a2 :: rest => do
          let old_c ← pyToInt a1
          let new_c ← pyToInt a2
          let mask := match rest with
            | a3 :: _ =>
              let nm := pyStr a3
              if nm = "" then none else aget st.layers nm
            | [] => none
          with_layer st w h (fun buf => color_replace buf w h old_c new_c mask)
        | _ => .error "ValueError: not enough values to unpack"
      else if name = "mask_layer" then
        match args with
        | a1 :: _ =>
          let mask_name := pyStr a1
          match aget st.layers mask_name with
          | some m =>
            if m.length ≠ 0 then with_layer st w h (fun buf => mask_layer_fn buf m)
            else Except.ok st
          | none => Except.ok st
        | _ => .error "IndexError: list index out of range"
      else if name = "outline_layer" then
        match args with
        | a1 :: rest => do
          let color ← pyToInt a1
          let thickness ← match rest with
            | a2 :: _ => pyToInt a2
            | [] => pure (1 : Int)
          with_layer st w h (fun buf => outline_layer buf w h thickness color)
        | _ => .error "IndexError: list index out of range"
      else if name = "circle_fill" then
        match args with
        | a1 :: a2 :: a3 :: a4 :: _ => do
          let c ← pyToInt a1
          let cx ← pyToInt a2
          let cy ← pyToInt a3
          let r ← pyToInt a4
          with_layer st w h (fun buf => ellipse_fill sqrtF buf w h c cx cy r r)
        | _ => .error "ValueError: not enough values to unpack"
      else if name = "bezier" then
        match args with
        | a1 :: a2 :: a3 :: a4 :: a5 :: a6 :: a7 :: _ => do
          let c ← pyToInt a1
          let x0 ← pyToInt a2
          let y0 ← pyToInt a3
          let cx ← pyToInt a4
          let cy ← pyToInt a5
          let x1 ← pyToInt a6
          let y1 ← pyToInt a7
          with_layer st w h (fun buf => draw_bezier buf w h c x0 y0 cx cy x1 y1)
        | _ => .error "ValueError: not enough values to unpack"
      else if name = "dither_rect" then
        match args with
        | a1 :: a2 :: a3 :: a4 :: a5 :: rest => do
          let c ← pyToInt a1
          let x ← pyToInt a2
          let y ← pyToInt a3
          let rw ← pyToInt a4
          let rh ← pyToInt a5
          let pattern := match rest with
            | a6 :: _ => pyStr a6
            | [] => "checker"
          with_layer st w h (fun buf => dither_rect buf w h c x y rw rh pattern)
        | _ => .error "ValueError: not enough values to unpack"
      else if name = "mirror" then
        let axis := match args with
          | a1 :: _ => pyStr a1
          | [] => "x"
        if axis = "x" then with_layer st w h (fun buf => mirror_x buf w h)
        else if axis = "y" then with_layer st w h (fun buf => mirror_y buf w h)
        else with_layer st w h (fun buf => Except.ok buf)
      else if name = "copy_layer" then
        match args with
        | a1 :: a2 :: _ =>
          let src_name := pyStr a1
          let dst_name := pyStr a2
          match aget st.layers src_name with
          | some s =>
            if s.length ≠ 0 then
              Except.ok ⟨aset st.layers dst_name s,
                (if dst_name ∈ st.order then st.order else st.order ++ [dst_name]),
                st.current⟩
            else Except.ok st
          | none => Except.ok st
        | _ => .error "IndexError: list index out of range"
      else if name = "translate" then
        match args with
        | a1 :: a2 :: _ => do
          let dx ← pyToInt a1
          let dy ← pyToInt a2
          with_layer st w h (fun buf => translate_buf buf w h dx dy)
        | _ => .error "ValueError: not enough values to unpack"
      else if name = "rotate" then
        match args with
        | a1 :: rest => do
          let angle_deg ← pyToFloat a1
          let cx ← match rest with
            | a2 :: _ => pyToFloat a2
            | [] => pure ((w : Frac) / 2)
          let cy ← match rest with
            | _ :: a3 :: _ => pyToFloat a3
            | _ => pure ((h : Frac) / 2)
          with_layer st w h (fun buf =>
            rotate_buf buf w h (cosF angle_deg) (sinF angle_deg) cx cy)
        | _ => .error "IndexError: list index out of range"
      else if name = "poly_fill" then
        match args with
        | a1 :: rest => do
          let c ← pyToInt a1
          let points ← parse_points rest
          with_layer st w h (fun buf => draw_poly buf w h c points)
        | _ => .error "IndexError: list index out of range"
      else if name = "fill" then
        match args with
        | a1 :: a2 :: a3 :: _ => do
          let c ← pyToInt a1
          let x ← pyToInt a2
          let y ← pyToInt a3
          with_layer st w h (fun buf => flood_fill buf w h c x y)
        | _ => .error "ValueError: not enough values to unpack"
      else if name = "inset_fill" then
        match args with
        | a1 :: a2 :: a3 :: a4 :: a5 :: a6 :: _ => do
          let c ← pyToInt a1
          let x ← pyToInt a2
          let y ← pyToInt a3
          let rw ← pyToInt a4
          let rh ← pyToInt a5
          let inset ← pyToInt a6
          let blo := ensure_layer st.layers st.order st.current w h
          let m ← merge_layers blo.2.1 blo.2.2 w h
          let buf' ← inset_fill_on_mask blo.1 m w h c x y rw rh inset
          Except.ok ⟨aset blo.2.1 st.current buf', blo.2.2, st.current⟩
        | _ => .error "ValueError: not enough values to unpack"
      else if name = "shade_band" then
        match args with
        | a1 :: a2 :: a3 :: rest => do
          let c ← pyToInt a1
          let layer_name := pyStr a2
          let side := pyStr a3
          let thickness ← match rest with
            | a4 :: _ => pyToInt a4
            | [] => pure (1 : Int)
          let blo := ensure_layer st.layers st.order st.current w h
          match aget blo.2.1 layer_name with
          | none => .error ("shade_band refers to missing layer " ++ layer_name)
          | some mask => do
            let buf' ← shade_band blo.1 mask w h c side thickness
            Except.ok ⟨aset blo.2.1 st.current buf', blo.2.2, st.current⟩
        | _ => .error "IndexError: list index out of range"
      else if name = "noise_points" then
        match args with
        | a1 :: a2 :: a3 :: a4 :: _ => do
          let c ← pyToInt a1
          let layer_name := pyStr a2
          let count ← pyToInt a3
          let seed ← pyToInt a4
          let blo := ensure_layer st.layers st.order st.current w h
          match aget blo.2.1 layer_name with
          | none => .error ("noise_points refers to missing layer " ++ layer_name)
          | some mask => do
            let buf' ← noise_points blo.1 mask w h c count seed
            Except.ok ⟨aset blo.2.1 st.current buf', blo.2.2, st.current⟩
        | _ => .error "IndexError: list index out of range"
      else if name = "outline" then
        match args with
        | a1 :: rest => do
          let outline_color ← pyToInt a1
          let thickness ← match rest with
            | a2 :: _ => pyToInt a2
            | [] => pure (1 : Int)
          let blo := ensure_layer st.layers st.order st.current w h
          let m ← merge_layers blo.2.1 blo.2.2 w h
          let mask := m.map (fun v => if v ≠ 0 then (1 : Int) else 0)
          let buf' ← outline_from_mask blo.1 mask w h outline_color thickness
          Except.ok ⟨aset blo.2.1 st.current buf', blo.2.2, st.current⟩
        | _ => .error "IndexError: list index out of range"
      else .error ("Unknown op: " ++ name)
    | other => .error ("Unknown op: " ++ pyStr other)
  | .jstr s =>
    if s = "" then .error "IndexError: string index out of range"
    else .error ("Unknown op: " ++ String.mk (s.data.take 1))
  | _ => .error "TypeError: op is not subscriptable"

/-- `render.render_frame`: start from a zeroed `base` layer, execute every
op, and return the merged view. -/
def render_frame (sqrtF cosF sinF : Frac → Frac) (ops : List JVal) (w h : Int) :
    Except String (List Int) := do
  let init : RState := ⟨[("base", List.replicate (w * h).toNat 0)], ["base"], "base"⟩
  let st ← ops.foldlM (exec_op sqrtF cosF sinF w h) init
  merge_layers st.layers st.order w h

/-! Reference functions written from the specification's own words, used
to compare the code's behaviour against the spec (refinement claims). -/

/-- Row-major enumeration of the positions from `n` on whose mask value is
non-zero. -/
def elig_from : List Int → Nat → List Nat
  | [], _ => []
  | v :: rest, n => if v ≠ 0 then n :: elig_from rest (n + 1) else elig_from rest (n + 1)

/-- Eligible pixel indices as the spec words them: the positions of the
mask (row-major buffer order) holding a non-zero value, in order. -/
def eligible_spec (mask : List Int) : List Nat := elig_from mask 0

/-- The LCG position stream of the noise spec: advance the generator once
per iteration and take `x mod len` each time. -/
def lcg_stream (len : Nat) : Nat → Int → List Nat
  | 0, _ => []
  | n + 1, x =>
    let x' := lcg_next x
    (x' % (len : Int)).toNat :: lcg_stream len n x'

/-- Write `color` at the listed indices, in order. -/
def write_seq (dest : List Int) (idxs : List Nat) (color : Int) : List Int :=
  idxs.foldl (fun b i => b.set i color) dest

/-- Noise as worded by the specification: row-major eligible enumeration,
LCG from `seed & 0x7FFFFFFF`, `count` writes at `eligible[x mod len]`. -/
def noise_spec (dest mask : List Int) (color count seed : Int) : List Int :=
  let el := eligible_spec mask
  if el.length = 0 ∨ count ≤ 0 then dest
  else
    write_seq dest
      ((lcg_stream el.length count.toNat (seed % (2 ^ 31))).map (fun j => el.getD j 0))
      color

/-- Exact ceiling of the square root of a natural number: the least `k`
with `n ≤ k * k` (searched among `0, …, n`, which always suffices). -/
def ceil_sqrt (n : Nat) : Nat :=
  ((List.range (n + 1)).filter (fun k => decide (n ≤ k * k))).headD n

/-- Thick line as the claim words it: walk the segment in
`2·ceil(length)` steps, stamping a circle of radius `thickness/2` at each
rounded sample point; a single circle when the endpoints coincide.  The
sample rounding follows the spec's round-half-away-from-zero contract;
circle stamps of radius 0 (the `thickness = 1` case) ignore the sqrt
argument of `ellipse_fill`. -/
def claim_thick_line (buf : List Int) (w h color x0 y0 x1 y1 thickness : Int) :
    Except String (List Int) :=
  let dx := x1 - x0
  let dy := y1 - y0
  if dx = 0 ∧ dy = 0 then
    ellipse_fill (fun q => q) buf w h color x0 y0 (thickness / 2) (thickness / 2)
  else
    let steps : Nat := 2 * ceil_sqrt (dx * dx + dy * dy).toNat
    (List.range (steps + 1)).foldlM (fun b i =>
      let t : Frac := (i : Frac) / (steps : Frac)
      ellipse_fill (fun q => q) b w h color
        (roundAway ((x0 : Frac) + t * (dx : Frac))) (roundAway ((y0 : Frac) + t * (dy : Frac)))
        (thickness / 2) (thickness / 2)) buf

/-- The sampling walk of the `thickness ≥ 2`, positive-length branch of
`draw_thick_line`, factored out so the amended thick-line claim can name
it. -/
def stamp_walk (sqrtF : Frac → Frac) (buf : List Int) (w h color x0 y0 dx dy rad steps : Int) :
    Except String (List Int) :=
  (rangeI 0 (steps + 1)).foldlM (fun b i =>
    let t : Frac := (i : Frac) / (steps : Frac)
    ellipse_fill sqrtF b w h color
      (pyRound ((x0 : Frac) + t * (dx : Frac))) (pyRound ((y0 : Frac) + t * (dy : Frac)))
      rad rad) buf

/-- The layer-name environment after validating a prefix of ops: `base`
plus every tracked `layer_begin`. -/
def layers_upto (ops : List JVal) (base : List String) : List String :=
  ops.foldl (fun ls op =>
    match layer_begin_name op with
    | some nm => ls ++ [nm]
    | none => ls) base

/-! Concrete example documents used by the counterexample theorems. -/

/-- A document the validator accepts whose second frame is derived and
appends an op with an unknown name. -/
def doc_unknown_append : Doc :=
  { format := "spriteops", canvas := some ⟨1, 1⟩, palette := some ["#000"],
    frames := some [{ ops := some [.jlist [.jstr "clear", .jint 0]] },
                    { base := some 0, append_ops := some [.jlist [.jstr "bogus"]] }] }

/-- A document whose second frame carries both `base` and `ops`. -/
def doc_base_and_ops : Doc :=
  { format := "spriteops", canvas := some ⟨1, 1⟩, palette := some ["#000"],
    frames := some [{ ops := some [.jlist [.jstr "clear", .jint 0]] },
                    { base := some 0, ops := some [.jlist [.jstr "clear", .jint 0]] }] }

/-- A document with a `shade_band` op whose side is not one of the four
supported names, over the all-zero `base` mask. -/
def doc_bad_side : Doc :=
  { format := "spriteops", canvas := some ⟨1, 1⟩, palette := some ["#000"],
    frames := some
      [{ ops := some [.jlist [.jstr "shade_band", .jint 0, .jstr "base", .jstr "weird"]] }] }

/-! Infrastructure lemmas about the Python list model. -/

theorem except_bind_ok {α β : Type} (a : α) (f : α → Except String β) :
    (Except.ok a : Except String α) >>= f = f a := rfl

theorem except_bind_error {α β : Type} (e : String) (f : α → Except String β) :
    (Except.error e : Except String α) >>= f = .error e := rfl

theorem pySet_pos {α : Type} (l : List α) (i : Int) (v : α) (h0 : 0 ≤ i)
    (h1 : i < l.length) : pySet l i v = .ok (l.set i.toNat v) := by
  unfold pySet
  rw [if_pos ⟨h0, h1⟩]

theorem pyIndex_pos {α : Type} (l : List α) (i : Int) (h0 : 0 ≤ i)
    (h1 : i < l.length) : pyIndex l i = .ok (l.get ⟨i.toNat, by omega⟩) := by
  unfold pyIndex
  rw [dif_pos ⟨h0, h1⟩]

/-! Claim theorems. -/

/-- C3 (counterexample): on the 4×1 canvas with endpoints (0,0)→(3,0) and
index list [1,2], the engine produces [1,1,1,2] — not the [1,1,2,2] the
claim states (the pixel at x = 2 has t = 2/3, and ⌊t·(N−1)⌋ = 0 selects
palette index 1). -/
theorem gradient_linear_scenario_counterexample :
    render_frame id id id
      [.jlist [.jstr "gradient_linear", .jstr "1,2", .jint 0, .jint 0, .jint 3, .jint 0]]
      4 1 = .ok [1, 1, 1, 2] ∧
    ([1, 1, 1, 2] : List Int) ≠ [1, 1, 2, 2] :=
  ⟨by rfl, by decide⟩

/-- C3 (amended): the gradient-linear scenario produces [1,1,1,2]: for each
pixel, t = clamp((p−p0)·d/|d|², 0, 1) and the palette position is
⌊t·(N−1)⌋, so x = 0,1,2 select index 1 and only x = 3 selects index 2. -/
theorem gradient_linear_scenario_amended :
    ∀ sqrtF cosF sinF : Frac → Frac,
      render_frame sqrtF cosF sinF
        [.jlist [.jstr "gradient_linear", .jstr "1,2", .jint 0, .jint 0, .jint 3, .jint 0]]
        4 1 = .ok [1, 1, 1, 2] := by
  intro sqrtF cosF sinF
  rfl

/-- C6 (counterexample): a document whose second frame has both `base`
and `ops` receives no diagnostic at all — `validate_frame` never forbids
`ops` next to `base` (the claim states at least one diagnostic). -/
theorem ops_with_base_counterexample :
    validate_sprite doc_base_and_ops false = [] := by decide

/-- C6 (amended): the validator accepts `ops` together with `base`
whenever the base index is an integer smaller than the frame's own index:
such a frame yields no diagnostic (`ops` even satisfies the
overrides/append_ops requirement). -/
theorem ops_with_base_accepted :
    ∀ (fr : Frame) (b : Int) (idx palette_size : Nat) (strict : Bool),
      fr.base = some b → b < (idx : Int) → fr.ops.isSome →
      validate_frame fr idx palette_size strict = [] := by
  intro fr b idx ps strict hbase hb hops
  obtain ⟨fbase, fops, fov, fap⟩ := fr
  simp only [Frame.base] at hbase
  subst hbase
  obtain _ | ops := fops
  · simp [Frame.ops] at hops
  · simp only [validate_frame]
    rw [if_neg (by omega)]
    simp [Frame.ops, Option.isNone]

/-- Witness for `ops_with_base_accepted` at a concrete frame. -/
theorem ops_with_base_accepted_witness :
    validate_frame { base := some 0, ops := some [.jlist [.jstr "clear", .jint 0]] }
      1 1 false = [] :=
  ops_with_base_accepted _ 0 1 1 false rfl (by decide) rfl

/-- C5 (counterexample): an override with `op_index = -1` is not ignored:
Python's `op_idx < len(base_ops)` lets negative indices through and the
list assignment replaces the frame's last op. -/
theorem inheritance_override_counterexample :
    process_frame_inheritance
      [{ ops := some [.jlist [.jstr "clear", .jint 0],
                      .jlist [.jstr "pixel", .jint 1, .jint 0, .jint 0]] },
       { base := some 0,
         overrides := some [{ op_index := some (-1),
                              op := some (.jlist [.jstr "pixel", .jint 1, .jint 1, .jint 0]) }] }]
      = .ok [[.jlist [.jstr "clear", .jint 0], .jlist [.jstr "pixel", .jint 1, .jint 0, .jint 0]],
             [.jlist [.jstr "clear", .jint 0], .jlist [.jstr "pixel", .jint 1, .jint 1, .jint 0]]]
    ∧ ([.jlist [.jstr "clear", .jint 0], .jlist [.jstr "pixel", .jint 1, .jint 1, .jint 0]] : List JVal)
      ≠ [.jlist [.jstr "clear", .jint 0], .jlist [.jstr "pixel", .jint 1, .jint 0, .jint 0]] :=
  ⟨by rfl, by simp⟩

/-- C5 (amended): overrides with `op_index ≥ len` are silently ignored;
`0 ≤ op_index < len` replaces that position; `-len ≤ op_index < 0`
replaces from the end of the list (Python indexing); `op_index < -len`
raises IndexError.  `append_ops` are appended afterwards and no other op
changes. -/
theorem inheritance_override_semantics :
    ∀ (base_ops : List JVal) (idx : Int) (v : JVal) (apps : List JVal),
      after_base base_ops
        { base := none, ops := none,
          overrides := some [{ op_index := some idx, op := some v }],
          append_ops := some apps } =
      (if (base_ops.length : Int) ≤ idx then .ok (base_ops ++ apps)
       else if 0 ≤ idx then .ok (base_ops.set idx.toNat v ++ apps)
       else if 0 ≤ idx + base_ops.length then
         .ok (base_ops.set (idx + base_ops.length).toNat v ++ apps)
       else .error "IndexError: list assignment index out of range") := by
  intro base_ops idx v apps
  simp only [after_base, apply_overrides, List.foldlM, pySet, Option.getD]
  split_ifs <;> first | rfl | omega

/-- C1 (counterexample): the validator accepts `doc_unknown_append`
(derived-frame override/append ops are never validated), yet rendering its
second resolved frame raises "Unknown op: bogus" — a runtime error that is
not one of the two §7 checks. -/
theorem validator_completeness_counterexample :
    validate_sprite doc_unknown_append false = [] ∧
    process_frame_inheritance (doc_unknown_append.frames.getD []) =
      .ok [[.jlist [.jstr "clear", .jint 0]],
           [.jlist [.jstr "clear", .jint 0], .jlist [.jstr "bogus"]]] ∧
    render_frame id id id
      [.jlist [.jstr "clear", .jint 0], .jlist [.jstr "bogus"]] 1 1 =
      .error "Unknown op: bogus" :=
  ⟨by decide, by rfl, by rfl⟩

/-- C7 (counterexample): a `shade_band` op with side "weird" over the
all-zero `base` mask is neither flagged by validation (no diagnostic) nor
a render failure — the unsupported-side raise sits inside the per-pixel
loop and no masked pixel ever reaches it, so the frame renders silently. -/
theorem shade_band_side_counterexample :
    validate_sprite doc_bad_side false = [] ∧
    render_frame id id id
      [.jlist [.jstr "shade_band", .jint 0, .jstr "base", .jstr "weird"]] 1 1 =
      .ok [0] :=
  ⟨by decide, by rfl⟩

/-- C10: a frame whose `base` is the negative integer −k (1 ≤ k, and k no
larger than the number of already-resolved frames) receives no diagnostic
from the frame validator — only `base ≥ frame index` is rejected — and the
resolver starts from the already-resolved ops of frame `i − k`, reached
through Python negative list indexing. -/
theorem negative_base_resolution :
    ∀ (fr : Frame) (k idx palette_size : Nat) (strict : Bool)
      (processed : List (List JVal))
      (hbase : fr.base = some (-(k : Int))) (hk : 1 ≤ k)
      (hklen : k ≤ processed.length)
      (hpres : fr.ops.isSome ∨ fr.overrides.isSome ∨ fr.append_ops.isSome),
      validate_frame fr idx palette_size strict = [] ∧
      resolve_step processed fr =
        after_base (processed.get ⟨processed.length - k, by omega⟩) fr := by
  intro fr k idx ps strict processed hbase hk hklen hpres
  obtain ⟨fbase, fops, fov, fap⟩ := fr
  simp only [Frame.base] at hbase
  subst hbase
  constructor
  · simp only [validate_frame]
    rw [if_neg (by omega)]
    rw [if_neg (by
      rintro ⟨h1, h2, h3⟩
      rcases hpres with h | h | h <;> simp_all)]
    rfl
  · simp only [resolve_step]
    unfold pyIndex
    have hn1 : ¬(0 ≤ (-(k : Int)) ∧ (-(k : Int)) < (processed.length : Int)) := by
      omega
    have hn2 : (-(k : Int)) < 0 ∧ 0 ≤ (-(k : Int)) + (processed.length : Int) := by
      omega
    rw [dif_neg hn1, dif_pos hn2]
    have hfin : ((-(k : Int)) + ↑processed.length).toNat = processed.length - k := by
      omega
    simp only [hfin]
    rfl

/-- Witness for `negative_base_resolution` at a concrete frame and
resolution state. -/
theorem negative_base_resolution_witness :
    validate_frame { base := some (-1), append_ops := some [] } 0 1 false = [] ∧
    resolve_step [[.jlist [.jstr "clear", .jint 0]]]
        { base := some (-1), append_ops := some [] } =
      after_base ([[.jlist [.jstr "clear", .jint 0]]].get ⟨0, by decide⟩)
        { base := some (-1), append_ops := some [] } :=
  negative_base_resolution { base := some (-1), append_ops := some [] } 1 0 1 false
    [[.jlist [.jstr "clear", .jint 0]]] rfl (by omega) (by decide)
    (Or.inr (Or.inr rfl))

/-! Lemmas for the noise determinism claim. -/

theorem enumFrom_filter_map (l : List Int) :
    ∀ n : Nat,
      ((l.enumFrom n).filter (fun p => decide (p.2 ≠ 0))).map Prod.fst = elig_from l n := by
  induction l with
  | nil => intro n; rfl
  | cons v rest ih =>
    intro n
    have ih' := ih (n + 1)
    simp only [ne_eq, decide_not] at ih' ⊢
    simp only [List.enumFrom, List.filter_cons, elig_from]
    by_cases hv : v = 0 <;> simp [hv, ih']

theorem eligible_eq (mask : List Int) :
    (mask.enum.filter (fun p => p.2 ≠ 0)).map Prod.fst = eligible_spec mask :=
  enumFrom_filter_map mask 0

theorem elig_from_bound (l : List Int) :
    ∀ n i, i ∈ elig_from l n → i < n + l.length := by
  induction l with
  | nil => intro n i hi; simp [elig_from] at hi
  | cons v rest ih =>
    intro n i hi
    simp only [elig_from] at hi
    by_cases hv : v = 0
    · simp only [hv, ne_eq, not_true_eq_false, if_false] at hi
      have := ih (n + 1) i hi
      simp only [List.length_cons]
      omega
    · rw [if_pos (by simpa using hv)] at hi
      rcases List.mem_cons.mp hi with h | h
      · simp only [List.length_cons]
        omega
      · have := ih (n + 1) i h
        simp only [List.length_cons]
        omega

theorem eligible_spec_bound (mask : List Int) :
    ∀ i ∈ eligible_spec mask, i < mask.length := by
  intro i hi
  have := elig_from_bound mask 0 i hi
  omega

theorem noise_loop_eq (el : List Nat) (color : Int) (L : Nat)
    (hbound : ∀ i ∈ el, i < L) (hne : 0 < el.length) :
    ∀ (n : Nat) (dest : List Int) (x : Int), dest.length = L →
      noise_loop el color n dest x =
        .ok (write_seq dest ((lcg_stream el.length n x).map (fun j => el.getD j 0)) color) := by
  intro n
  induction n with
  | zero => intro dest x _; rfl
  | succ n ih =>
    intro dest x hdest
    have hlen0 : (0 : Int) < (el.length : Int) := by exact_mod_cast hne
    have hmod0 : 0 ≤ lcg_next x % (el.length : Int) := Int.emod_nonneg _ (by omega)
    have hmodlt : lcg_next x % (el.length : Int) < (el.length : Int) :=
      Int.emod_lt_of_pos _ hlen0
    have htn : (lcg_next x % (el.length : Int)).toNat < el.length :=
      (Int.toNat_lt hmod0).mpr hmodlt
    have hget := pyIndex_pos el (lcg_next x % (el.length : Int)) hmod0 hmodlt
    have hgd : el.getD (lcg_next x % (el.length : Int)).toNat 0 =
        el.get ⟨(lcg_next x % (el.length : Int)).toNat, htn⟩ := by
      rw [List.getD_eq_getElem?_getD]
      rw [List.getElem?_eq_getElem htn]
      simp [List.get_eq_getElem]
    have hidxlt : el.get ⟨(lcg_next x % (el.length : Int)).toNat, htn⟩ < L :=
      hbound _ (el.get_mem _ _)
    have hset := pySet_pos dest
      ((el.get ⟨(lcg_next x % (el.length : Int)).toNat, htn⟩ : Nat) : Int)
      color (by omega) (by omega)
    simp only [noise_loop, hget, except_bind_ok, hset]
    rw [ih _ _ (by simp [hdest])]
    simp only [lcg_stream, write_seq, List.map_cons, List.foldl_cons]
    rw [hgd]
    simp

/-- C2: `noise_points` is exactly the spec's LCG procedure: eligible mask
indices are enumerated in row-major order; an empty eligible set or a
non-positive count leaves the buffer unchanged; otherwise the generator
starts at `seed & 0x7FFFFFFF`, advances once per iteration, and paints
`eligible[x mod len]` for each of the `count` iterations, in order. -/
theorem noise_points_determinism :
    ∀ (dest mask : List Int) (w h color count seed : Int),
      dest.length = mask.length →
      noise_points dest mask w h color count seed =
        .ok (noise_spec dest mask color count seed) := by
  intro dest mask w h color count seed hlen
  unfold noise_points noise_spec
  rw [eligible_eq mask]
  by_cases hc : (eligible_spec mask).length = 0 ∨ count ≤ 0
  · rw [if_pos hc, if_pos hc]
  · rw [if_neg hc, if_neg hc]
    push_neg at hc
    exact noise_loop_eq (eligible_spec mask) color mask.length
      (eligible_spec_bound mask) (by omega) count.toNat dest (seed % 2 ^ 31) hlen

/-- Witness for `noise_points_determinism`: the 10×10 scenario with a full
mask, five points and seed 42. -/
theorem noise_points_determinism_witness :
    noise_points (List.replicate 100 0) (List.replicate 100 1) 10 10 2 5 42 =
      .ok (noise_spec (List.replicate 100 0) (List.replicate 100 1) 2 5 42) :=
  noise_points_determinism (List.replicate 100 0) (List.replicate 100 1) 10 10 2 5 42
    (by decide)

/-! Generic lemmas about Except folds and `rangeI`. -/

theorem mem_rangeI {a b x : Int} : x ∈ rangeI a b ↔ a ≤ x ∧ x < b := by
  unfold rangeI
  simp only [List.mem_map, List.mem_range]
  constructor
  · rintro ⟨i, hi, rfl⟩
    omega
  · rintro ⟨h1, h2⟩
    exact ⟨(x - a).toNat, by omega, by omega⟩

theorem foldlM_invariant {α β : Type} (l : List α) (f : β → α → Except String β)
    (P : β → Prop)
    (hf : ∀ b a, P b → a ∈ l → ∃ b', f b a = .ok b' ∧ P b') :
    ∀ b, P b → ∃ out, l.foldlM f b = .ok out ∧ P out := by
  induction l with
  | nil => intro b hb; exact ⟨b, rfl, hb⟩
  | cons a l ih =>
    intro b hb
    obtain ⟨b', hfa, hb'⟩ := hf b a hb (List.mem_cons_self a l)
    obtain ⟨out, hout, hP⟩ :=
      ih (fun b a hPb ha => hf b a hPb (List.mem_cons_of_mem _ ha)) b' hb'
    exact ⟨out, by simp only [List.foldlM_cons, hfa, except_bind_ok, hout], hP⟩

theorem foldlM_id {α β : Type} (l : List α) (f : β → α → Except String β) (b : β)
    (h : ∀ a ∈ l, f b a = .ok b) : l.foldlM f b = .ok b := by
  induction l with
  | nil => rfl
  | cons a l ih =>
    have ha := h a (List.mem_cons_self a l)
    have ht := ih (fun a ha' => h a (List.mem_cons_of_mem _ ha'))
    simp only [List.foldlM_cons, ha, except_bind_ok, ht]

theorem foldlM_error {α β : Type} (l : List α) (f : β → α → Except String β)
    (P : α → Prop)
    (hok : ∀ b a, a ∈ l → ¬ P a → f b a = .ok b)
    (herr : ∀ b a, a ∈ l → P a → ∃ e, f b a = .error e) :
    (∃ a ∈ l, P a) → ∀ b, ∃ e, l.foldlM f b = .error e := by
  induction l with
  | nil => rintro ⟨a, ha, _⟩; simp at ha
  | cons a l ih =>
    rintro ⟨a0, ha0, hP0⟩ b
    by_cases hPa : P a
    · obtain ⟨e, he⟩ := herr b a (List.mem_cons_self a l) hPa
      exact ⟨e, by simp only [List.foldlM_cons, he, except_bind_error]⟩
    · have hfb := hok b a (List.mem_cons_self a l) hPa
      have ha0l : a0 ∈ l := by
        rcases List.mem_cons.mp ha0 with h | h
        · exact absurd (h ▸ hP0) hPa
        · exact h
      obtain ⟨e, he⟩ := ih
        (fun b a ha' => hok b a (List.mem_cons_of_mem _ ha'))
        (fun b a ha' => herr b a (List.mem_cons_of_mem _ ha'))
        ⟨a0, ha0l, hP0⟩ b
      exact ⟨e, by simp only [List.foldlM_cons, hfb, except_bind_ok, he]⟩

theorem getD_eq_get {α : Type} (l : List α) (d : α) {n : Nat} (h : n < l.length) :
    l.getD n d = l.get ⟨n, h⟩ := by
  rw [List.getD_eq_getElem?_getD, List.getElem?_eq_getElem h]
  simp [List.get_eq_getElem]

/-- C7 (amended): validation never inspects the side string; `shade_band`
with a side whose lowercase form is not one of right/bottom/top_left/edge
raises at run time exactly when some pixel of the mask inside the canvas
is non-zero (the counterexample shows the all-zero mask renders
silently). -/
theorem shade_band_side_error :
    ∀ (dest mask : List Int) (w h c t : Int) (side : String),
      lower_str side ≠ "right" → lower_str side ≠ "bottom" →
      lower_str side ≠ "top_left" → lower_str side ≠ "edge" →
      0 ≤ w → 0 ≤ h → mask.length = (w * h).toNat →
      (∃ i : Nat, ∃ hi : i < mask.length, mask.get ⟨i, hi⟩ ≠ 0) →
      ∃ e, shade_band dest mask w h c side t = .error e := by
  intro dest mask w h c t side h1 h2 h3 h4 hw hh hlen hex
  obtain ⟨i, hi, hnz⟩ := hex
  have hwh : 0 < w * h := by omega
  have hw0 : 0 < w := by
    rcases lt_or_eq_of_le hw with h | h
    · exact h
    · rw [← h] at hwh
      simp at hwh
  have hh0 : 0 < h := by
    rcases lt_or_eq_of_le hh with h | h
    · exact h
    · rw [← h] at hwh
      simp at hwh
  have hiwh : (i : Int) < w * h := by omega
  set yi : Int := (i : Int) / w with hyi
  set xi : Int := (i : Int) % w with hxi
  have hx0 : 0 ≤ xi := Int.emod_nonneg _ (by omega)
  have hxw : xi < w := Int.emod_lt_of_pos _ hw0
  have hy0 : 0 ≤ yi := Int.ediv_nonneg (by omega) (by omega)
  have hyh : yi < h := by
    rw [hyi, Int.ediv_lt_iff_lt_mul hw0]
    have hcm : h * w = w * h := mul_comm h w
    omega
  have hdecomp : yi * w + xi = (i : Int) := by
    rw [hyi, hxi]
    have h5 := Int.ediv_add_emod (i : Int) w
    have hcm : ((i : Int) / w) * w = w * ((i : Int) / w) := mul_comm _ _
    omega
  have hread : ∀ y x : Int, 0 ≤ y → y < h → 0 ≤ x → x < w →
      pyIndex mask (y * w + x) =
        .ok (mask.getD ((y * w + x).toNat) 0) := by
    intro y x hy1 hy2 hx1 hx2
    have hb0 : 0 ≤ y * w + x := by
      have : 0 ≤ y * w := mul_nonneg hy1 (by omega)
      omega
    have hb1 : y * w + x < (mask.length : Int) := by
      have hyw : y * w ≤ (h - 1) * w := by
        apply mul_le_mul_of_nonneg_right _ (by omega)
        omega
      have : y * w + x < w * h := by nlinarith
      omega
    rw [pyIndex_pos mask _ hb0 hb1]
    rw [getD_eq_get mask 0 (by omega)]
  unfold shade_band
  refine (foldlM_error _ _
    (fun y => 0 ≤ y ∧ y < h ∧ ∃ x, 0 ≤ x ∧ x < w ∧ mask.getD ((y * w + x).toNat) 0 ≠ 0)
    ?_ ?_ ?_) dest
  · -- rows with no non-zero masked pixel: every pixel is skipped
    intro d y hyl hnp
    have hy := mem_rangeI.mp hyl
    apply foldlM_id
    intro x hxl
    have hx := mem_rangeI.mp hxl
    simp only []
    rw [hread y x hy.1 hy.2 hx.1 hx.2]
    simp only [except_bind_ok]
    rw [if_pos]
    by_contra hzz
    exact hnp ⟨hy.1, hy.2, x, hx.1, hx.2, hzz⟩
  · -- a row with a non-zero masked pixel errors at its first such pixel
    intro d y hyl hP
    obtain ⟨hy1, hy2, x0, hx01, hx02, hnz0⟩ := hP
    refine (foldlM_error _ _
      (fun x => 0 ≤ x ∧ x < w ∧ mask.getD ((y * w + x).toNat) 0 ≠ 0) ?_ ?_ ?_) d
    · intro d2 x hxl hnp
      have hx := mem_rangeI.mp hxl
      simp only []
      rw [hread y x hy1 hy2 hx.1 hx.2]
      simp only [except_bind_ok]
      rw [if_pos]
      by_contra hzz
      exact hnp ⟨hx.1, hx.2, hzz⟩
    · intro d2 x hxl hPx
      simp only []
      rw [hread y x hy1 hy2 hPx.1 hPx.2.1]
      simp only [except_bind_ok]
      rw [if_neg hPx.2.2, if_neg h1, if_neg h2, if_neg h3, if_neg h4]
      exact ⟨_, rfl⟩
    · exact ⟨x0, mem_rangeI.mpr ⟨hx01, hx02⟩, hx01, hx02, hnz0⟩
  · refine ⟨yi, mem_rangeI.mpr ⟨hy0, hyh⟩, hy0, hyh, xi, hx0, hxw, ?_⟩
    have : (yi * w + xi).toNat = i := by omega
    rw [this, getD_eq_get mask 0 hi]
    exact hnz

/-- Witness for `shade_band_side_error` at a concrete 1×1 mask. -/
theorem shade_band_side_error_witness :
    ∃ e, shade_band [0] [1] 1 1 5 "weird" 1 = .error e :=
  shade_band_side_error [0] [1] 1 1 5 1 "weird" (by decide) (by decide) (by decide)
    (by decide) (by decide) (by decide) (by decide) ⟨0, by decide, by decide⟩

/-! Lemmas about `overlay`, `merge_layers`, and guarded writes. -/

theorem in_bounds_index {x y w h : Int} (hb : in_bounds x y w h) :
    0 ≤ y * w + x ∧ y * w + x < w * h := by
  obtain ⟨h1, h2, h3, h4⟩ := hb
  have hyw : y * w ≤ (h - 1) * w :=
    mul_le_mul_of_nonneg_right (by omega) (by omega)
  have hexp : (h - 1) * w = h * w - w := by ring
  have hcm : h * w = w * h := mul_comm h w
  have h0 : 0 ≤ y * w := mul_nonneg h3 (by omega)
  omega

theorem overlay_from_spec :
    ∀ (src out : List Int) (k : Nat), k + src.length ≤ out.length →
      ∃ r, (src.enumFrom k).foldlM (fun acc iv =>
          if iv.2 ≠ 0 then pySet acc (iv.1 : Int) iv.2 else .ok acc) out = .ok r ∧
        r.length = out.length ∧
        ∀ j : Nat,
          r[j]? = if k ≤ j ∧ src.getD (j - k) 0 ≠ 0 then some (src.getD (j - k) 0)
                  else out[j]? := by
  intro src
  induction src with
  | nil =>
    intro out k _
    refine ⟨out, rfl, rfl, fun j => ?_⟩
    simp
  | cons v rest ih =>
    intro out k hlen
    simp only [List.length_cons] at hlen
    have hk : (k : Int) < out.length := by omega
    have hstep : ∃ out1 : List Int,
        (if v ≠ 0 then pySet out (k : Int) v else .ok out) = .ok out1 ∧
        out1.length = out.length ∧
        (∀ j : Nat, j ≠ k → out1[j]? = out[j]?) ∧
        (v ≠ 0 → out1[k]? = some v) ∧ (v = 0 → out1 = out) := by
      by_cases hv : v = 0
      · exact ⟨out, by simp [hv], rfl, fun _ _ => rfl, fun h => absurd hv h, fun _ => rfl⟩
      · refine ⟨out.set k v, by
          rw [if_pos hv, pySet_pos out (k : Int) v (by omega) hk]
          simp, by simp, ?_, ?_, fun h => absurd h hv⟩
        · intro j hj
          rw [List.getElem?_set]
          rw [if_neg (by omega)]
        · intro _
          rw [List.getElem?_set]
          rw [if_pos rfl, if_pos (by omega)]
    obtain ⟨out1, hout1, hlen1, hne, heq, hzero⟩ := hstep
    obtain ⟨r, hr, hrl, hrj⟩ := ih out1 (k + 1) (by omega)
    refine ⟨r, ?_, by omega, ?_⟩
    · simp only [List.enumFrom, List.foldlM_cons]
      rw [hout1]
      rw [except_bind_ok]
      exact hr
    · intro j
      rw [hrj j]
      rcases Nat.lt_trichotomy j k with hjk | hjk | hjk
      · rw [if_neg (by omega), if_neg (by omega)]
        exact hne j (by omega)
      · subst hjk
        rw [if_neg (by omega)]
        by_cases hv : v = 0
        · rw [if_neg (by simp [hv])]
          rw [hzero hv]
        · rw [if_pos ⟨le_refl j, by simpa using hv⟩]
          simpa using heq hv
      · have hsub : j - k = (j - (k + 1)) + 1 := by omega
        by_cases hz : rest.getD (j - (k + 1)) 0 ≠ 0
        · rw [if_pos ⟨by omega, hz⟩, if_pos ⟨by omega, by
            rw [hsub, List.getD_cons_succ]
            exact hz⟩]
          rw [hsub, List.getD_cons_succ]
        · rw [if_neg (by
            rintro ⟨h1, h2⟩
            exact hz h2), if_neg (by
            rintro ⟨h1, h2⟩
            rw [hsub, List.getD_cons_succ] at h2
            exact hz h2)]
          exact hne j (by omega)

theorem overlay_spec (out src : List Int) (hlen : src.length ≤ out.length) :
    ∃ r, overlay out src = .ok r ∧ r.length = out.length ∧
      ∀ j : Nat, r[j]? = if src.getD j 0 ≠ 0 then some (src.getD j 0) else out[j]? := by
  obtain ⟨r, hr, hl, hj⟩ := overlay_from_spec src out 0 (by omega)
  refine ⟨r, ?_, hl, fun j => ?_⟩
  · unfold overlay
    exact hr
  · have h := hj j
    simpa using h

theorem aget_mem {layers : List (String × List Int)} {k : String} {v : List Int}
    (h : aget layers k = some v) : ∃ kv ∈ layers, kv.2 = v := by
  unfold aget at h
  obtain ⟨kv, hfind, hsnd⟩ := Option.map_eq_some'.mp h
  exact ⟨kv, List.mem_of_find?_eq_some hfind, hsnd⟩

theorem merge_layers_ok (layers : List (String × List Int)) (order : List String)
    (w h : Int) (hl : ∀ kv ∈ layers, (kv.2 : List Int).length = (w * h).toNat) :
    ∃ M, merge_layers layers order w h = .ok M ∧ M.length = (w * h).toNat := by
  unfold merge_layers
  have hres := foldlM_invariant order
    (fun out lname =>
      match aget layers lname with
      | none => .ok out
      | some src => overlay out src)
    (fun b => b.length = (w * h).toNat)
    ?_ (List.replicate (w * h).toNat 0) (by simp)
  · obtain ⟨out, h1, h2⟩ := hres
    exact ⟨out, h1, h2⟩
  · intro b a hb ha
    cases hg : aget layers a with
    | none =>
      refine ⟨b, ?_, hb⟩
      show (match aget layers a with
        | none => Except.ok b
        | some src => overlay b src) = Except.ok b
      rw [hg]
    | some src =>
      obtain ⟨kv, hkv, hsnd⟩ := aget_mem hg
      have hsrc : src.length = (w * h).toNat := by
        rw [← hsnd]
        exact hl kv hkv
      obtain ⟨r, hr, hrl, _⟩ := overlay_spec b src (by omega)
      refine ⟨r, ?_, by omega⟩
      show (match aget layers a with
        | none => Except.ok b
        | some src => overlay b src) = Except.ok r
      rw [hg]
      exact hr

/-- C9: after `layer_merge` with a target `t ≠ "base"` the layer state is
exactly the single layer `t` holding the previous merged view, with
insertion order `[t]` and current layer `t`; a following `layer_end` sets
the current layer back to `"base"` (which no longer exists); the next
drawing op recreates `"base"` zero-filled and appends it after `t`, so in
the merged view the non-zero pixel drawn on `"base"` overwrites `t`. -/
theorem layer_merge_recreate_base :
    ∀ (sqrtF cosF sinF : Frac → Frac) (w h : Int) (st : RState) (t : String)
      (c x y : Int),
      t ≠ "base" →
      (∀ kv ∈ st.layers, (kv.2 : List Int).length = (w * h).toNat) →
      in_bounds x y w h → c ≠ 0 →
      ∃ M V,
        merge_layers st.layers st.order w h = .ok M ∧
        (exec_op sqrtF cosF sinF w h st (.jlist [.jstr "layer_merge", .jstr t]) >>=
          fun s1 => exec_op sqrtF cosF sinF w h s1 (.jlist [.jstr "layer_end"]) >>=
          fun s2 => exec_op sqrtF cosF sinF w h s2
            (.jlist [.jstr "pixel", .jint c, .jint x, .jint y])) =
          .ok ⟨[(t, M),
                ("base", (List.replicate (w * h).toNat 0).set (y * w + x).toNat c)],
               [t, "base"], "base"⟩ ∧
        merge_layers
          [(t, M), ("base", (List.replicate (w * h).toNat 0).set (y * w + x).toNat c)]
          [t, "base"] w h = .ok V ∧
        V[(y * w + x).toNat]? = some c := by
  intro sqrtF cosF sinF w h st t c x y ht hlay hb hc
  obtain ⟨hi0, hiwh⟩ := in_bounds_index hb
  have hwh0 : 0 ≤ w * h := by omega
  obtain ⟨M, hM, hMlen⟩ := merge_layers_ok st.layers st.order w h hlay
  have htb : (t == "base") = false := beq_eq_false_iff_ne.mpr ht
  have hbb : ("base" == "base") = true := beq_self_eq_true "base"
  have htt : (t == t) = true := beq_self_eq_true t
  set zeros : List Int := List.replicate (w * h).toNat 0 with hzeros
  have hzlen : zeros.length = (w * h).toNat := by simp [hzeros]
  set B : List Int := zeros.set (y * w + x).toNat c with hB
  have hBlen : B.length = (w * h).toNat := by simp [hB, hzlen]
  -- step 1: layer_merge
  have e1 : exec_op sqrtF cosF sinF w h st (.jlist [.jstr "layer_merge", .jstr t]) =
      (merge_layers st.layers st.order w h >>= fun m =>
        Except.ok ⟨[(t, m)], [t], t⟩) := rfl
  -- step 3 pieces: ensure_layer on the merged state creates "base"
  have hagetb : aget [(t, M)] "base" = none := by
    unfold aget
    rw [List.find?_cons_of_neg _ (by simp [htb])]
    rfl
  have hens : ensure_layer [(t, M)] [t] "base" w h =
      (zeros, [(t, M), ("base", zeros)], [t, "base"]) := by
    unfold ensure_layer
    rw [hagetb]
    rfl
  have hset : pySet zeros (y * w + x) c = .ok B := by
    rw [pySet_pos zeros (y * w + x) c hi0 (by omega)]
  have haset : aset [(t, M), ("base", zeros)] "base" B = [(t, M), ("base", B)] := by
    unfold aset
    rw [if_pos (by simp [hbb])]
    simp only [List.map_cons, List.map_nil, htb, hbb, if_true, if_false,
      Bool.false_eq_true]
  have e3 : exec_op sqrtF cosF sinF w h ⟨[(t, M)], [t], "base"⟩
      (.jlist [.jstr "pixel", .jint c, .jint x, .jint y]) =
      .ok ⟨[(t, M), ("base", B)], [t, "base"], "base"⟩ := by
    show (do
      let c' ← pyToInt (.jint c)
      let x' ← pyToInt (.jint x)
      let y' ← pyToInt (.jint y)
      with_layer ⟨[(t, M)], [t], "base"⟩ w h (fun buf =>
        if in_bounds x' y' w h then pySet buf (y' * w + x') c' else .ok buf)) = _
    simp only [pyToInt, except_bind_ok]
    unfold with_layer
    rw [hens]
    simp only []
    rw [if_pos hb, hset, except_bind_ok, haset]
  -- the final merged view
  have hagett : aget [(t, M), ("base", B)] t = some M := by
    unfold aget
    rw [List.find?_cons_of_pos _ (by simp [htt])]
    rfl
  have hagetb2 : aget [(t, M), ("base", B)] "base" = some B := by
    unfold aget
    rw [List.find?_cons_of_neg _ (by simp [htb]), List.find?_cons_of_pos _ (by simp [hbb])]
    rfl
  obtain ⟨O1, hO1, hO1len, _⟩ := overlay_spec zeros M (by omega)
  obtain ⟨V, hV, hVlen, hVj⟩ := overlay_spec O1 B (by omega)
  have hmerge2 : merge_layers [(t, M), ("base", B)] [t, "base"] w h = .ok V := by
    unfold merge_layers
    simp only [List.foldlM_cons, List.foldlM_nil, hagett, hagetb2, ← hzeros]
    rw [hO1, except_bind_ok, hV]
    rfl
  refine ⟨M, V, hM, ?_, hmerge2, ?_⟩
  · rw [e1, hM]
    rw [except_bind_ok, except_bind_ok]
    have e2 : exec_op sqrtF cosF sinF w h ⟨[(t, M)], [t], t⟩
        (.jlist [.jstr "layer_end"]) = .ok ⟨[(t, M)], [t], "base"⟩ := rfl
    rw [e2, except_bind_ok, e3]
  · rw [hVj ((y * w + x).toNat)]
    have hBval : B.getD ((y * w + x).toNat) 0 = c := by
      rw [List.getD_eq_getElem?_getD, hB, List.getElem?_set]
      rw [if_pos rfl, if_pos (by omega)]
      rfl
    rw [hBval, if_pos hc]

/-- Witness for `layer_merge_recreate_base` on a concrete 2×1 canvas and
starting state. -/
theorem layer_merge_recreate_base_witness :
    ∃ M V,
      merge_layers [("base", [3, 0])] ["base"] 2 1 = .ok M ∧
      (exec_op (fun q => q) (fun q => q) (fun q => q) 2 1 ⟨[("base", [3, 0])], ["base"], "base"⟩
          (.jlist [.jstr "layer_merge", .jstr "m"]) >>=
        fun s1 => exec_op (fun q => q) (fun q => q) (fun q => q) 2 1 s1
          (.jlist [.jstr "layer_end"]) >>=
        fun s2 => exec_op (fun q => q) (fun q => q) (fun q => q) 2 1 s2
          (.jlist [.jstr "pixel", .jint 5, .jint 0, .jint 0])) =
        .ok ⟨[("m", M), ("base", (List.replicate ((2 * 1 : Int)).toNat 0).set
            ((0 * 2 + 0 : Int)).toNat 5)], ["m", "base"], "base"⟩ ∧
      merge_layers [("m", M), ("base", (List.replicate ((2 * 1 : Int)).toNat 0).set
          ((0 * 2 + 0 : Int)).toNat 5)] ["m", "base"] 2 1 = .ok V ∧
      V[((0 * 2 + 0 : Int)).toNat]? = some 5 :=
  layer_merge_recreate_base (fun q => q) (fun q => q) (fun q => q) 2 1
    ⟨[("base", [3, 0])], ["base"], "base"⟩ "m" 5 0 0 (by decide)
    (by
      intro kv hkv
      simp only [List.mem_singleton] at hkv
      subst hkv
      decide)
    (by decide) (by decide)



/-- C8 counterexample: on a 3×2 canvas with endpoints (0,0) and (2,1)
(distinct) and thickness 1, `draw_thick_line` draws the Bresenham line
{(0,0),(1,1),(2,1)}, while the claimed walk (2·ceil(length) circle stamps
of radius thickness//2 = 0 at rounded sample points, `claim_thick_line`)
also paints (1,0): the results differ. -/
theorem thick_line_spec_counterexample :
    draw_thick_line (fun q => q) (List.replicate 6 0) 3 2 9 0 0 2 1 1 =
      .ok [9, 0, 0, 0, 9, 9] ∧
    claim_thick_line (List.replicate 6 0) 3 2 9 0 0 2 1 1 =
      .ok [9, 9, 0, 0, 9, 9] ∧
    ([9, 0, 0, 0, 9, 9] : List Int) ≠ [9, 9, 0, 0, 9, 9] :=
  ⟨rfl, rfl, by decide⟩

/-- C8 amended: `draw_thick_line` with thickness ≤ 1 is exactly the
Bresenham `draw_line` (no circle walk); with thickness ≥ 2 and zero
float length it stamps one filled circle of radius thickness//2 at the
first endpoint; otherwise it walks `int(dist·2)` steps (truncation of
twice the float length, not `2·ceil(length)`), stamping a circle of
radius thickness//2 at each round-half-to-even sample point
(`stamp_walk`). -/
theorem thick_line_semantics (sqrtF : Frac → Frac) (buf : List Int)
    (w h color x0 y0 x1 y1 thickness : Int) :
    (thickness ≤ 1 →
      draw_thick_line sqrtF buf w h color x0 y0 x1 y1 thickness =
        draw_line buf w h color x0 y0 x1 y1) ∧
    (1 < thickness →
      (Frac.eqv (sqrtF (((x1 - x0) * (x1 - x0) + (y1 - y0) * (y1 - y0) : Int) : Frac)) 0 →
        draw_thick_line sqrtF buf w h color x0 y0 x1 y1 thickness =
          ellipse_fill sqrtF buf w h color x0 y0 (thickness / 2) (thickness / 2)) ∧
      (¬ Frac.eqv (sqrtF (((x1 - x0) * (x1 - x0) + (y1 - y0) * (y1 - y0) : Int) : Frac)) 0 →
        draw_thick_line sqrtF buf w h color x0 y0 x1 y1 thickness =
          stamp_walk sqrtF buf w h color x0 y0 (x1 - x0) (y1 - y0) (thickness / 2)
            (pyTrunc (sqrtF (((x1 - x0) * (x1 - x0) + (y1 - y0) * (y1 - y0) : Int) : Frac) * 2)))) := by
  refine ⟨fun hle => ?_, fun hgt => ⟨fun heq => ?_, fun hne => ?_⟩⟩
  · unfold draw_thick_line
    rw [if_pos hle]
  · unfold draw_thick_line
    rw [if_neg (by omega)]
    simp only []
    rw [if_pos heq]
  · unfold draw_thick_line stamp_walk
    rw [if_neg (by omega)]
    simp only []
    rw [if_neg hne]

/-! Bounds-safety development: totality and length preservation of every
raster primitive, given a buffer of the advertised size.  All writes go
through `put` or a `0 ≤ xx < w`-and-`0 ≤ yy < h`-guarded `pySet`, whose
index `yy * w + xx` is shown to lie in `[0, w * h)`. -/

theorem put_spec (buf : List Int) (w h x y v : Int) (hlen : buf.length = (w * h).toNat) :
    (¬ in_bounds x y w h ∧ put buf w h x y v = .ok buf) ∨
    (in_bounds x y w h ∧ 0 ≤ y * w + x ∧ y * w + x < w * h ∧
      put buf w h x y v = .ok (buf.set (y * w + x).toNat v)) := by
  by_cases hb : in_bounds x y w h
  · obtain ⟨hi0, hiw⟩ := in_bounds_index hb
    right
    refine ⟨hb, hi0, hiw, ?_⟩
    unfold put
    rw [if_pos hb]
    exact pySet_pos buf (y * w + x) v hi0 (by omega)
  · left
    refine ⟨hb, ?_⟩
    unfold put
    rw [if_neg hb]

theorem put_ok (buf : List Int) (w h x y v : Int) (hlen : buf.length = (w * h).toNat) :
    ∃ out, put buf w h x y v = .ok out ∧ out.length = (w * h).toNat := by
  rcases put_spec buf w h x y v hlen with ⟨_, hp⟩ | ⟨_, _, _, hp⟩
  · exact ⟨buf, hp, hlen⟩
  · exact ⟨_, hp, by simp [hlen]⟩

theorem pySet_grid_ok (b : List Int) (w h xx yy v : Int) (hlen : b.length = (w * h).toNat)
    (hx0 : 0 ≤ xx) (hxw : xx < w) (hy0 : 0 ≤ yy) (hyh : yy < h) :
    ∃ out, pySet b (yy * w + xx) v = .ok out ∧ out.length = (w * h).toNat := by
  obtain ⟨hi0, hiw⟩ := in_bounds_index (⟨hx0, hxw, hy0, hyh⟩ : in_bounds xx yy w h)
  exact ⟨_, pySet_pos b (yy * w + xx) v hi0 (by omega), by simp [hlen]⟩

theorem pyIndex_grid_ok {α : Type} (l : List α) (w h xx yy : Int)
    (hlen : l.length = (w * h).toNat)
    (hx0 : 0 ≤ xx) (hxw : xx < w) (hy0 : 0 ≤ yy) (hyh : yy < h) :
    ∃ v, pyIndex l (yy * w + xx) = .ok v := by
  obtain ⟨hi0, hiw⟩ := in_bounds_index (⟨hx0, hxw, hy0, hyh⟩ : in_bounds xx yy w h)
  exact ⟨_, pyIndex_pos l (yy * w + xx) hi0 (by omega)⟩

theorem pySet_length {α : Type} (l l' : List α) (i : Int) (v : α)
    (h : pySet l i v = .ok l') : l'.length = l.length := by
  unfold pySet at h
  split at h
  · cases h; simp
  · split at h
    · cases h; simp
    · cases h

theorem draw_line_loop_ok (w h color x1 y1 sx sy dx dy : Int) :
    ∀ (fuel : Nat) (buf : List Int) (x y err : Int), buf.length = (w * h).toNat →
      ∃ out, draw_line_loop w h color x1 y1 sx sy dx dy fuel buf x y err = .ok out ∧
        out.length = (w * h).toNat := by
  intro fuel
  induction fuel with
  | zero => intro buf x y err hlen; exact ⟨buf, rfl, hlen⟩
  | succ n ih =>
    intro buf x y err hlen
    obtain ⟨b1, hput, hlen1⟩ := put_ok buf w h x y color hlen
    by_cases hxy : x = x1 ∧ y = y1
    · refine ⟨b1, ?_, hlen1⟩
      simp only [draw_line_loop, hput, except_bind_ok, if_pos hxy]
    · obtain ⟨out, hrec, hlen2⟩ := ih b1 _ _ _ hlen1
      refine ⟨out, ?_, hlen2⟩
      simp only [draw_line_loop, hput, except_bind_ok, if_neg hxy]
      exact hrec

theorem draw_line_ok (buf : List Int) (w h color x0 y0 x1 y1 : Int)
    (hlen : buf.length = (w * h).toNat) :
    ∃ out, draw_line buf w h color x0 y0 x1 y1 = .ok out ∧
      out.length = (w * h).toNat := by
  unfold draw_line
  exact draw_line_loop_ok w h color x1 y1 _ _ _ _ _ buf x0 y0 _ hlen

theorem ellipse_fill_ok (sqrtF : Frac → Frac) (buf : List Int) (w h color cx cy rx ry : Int)
    (hlen : buf.length = (w * h).toNat) :
    ∃ out, ellipse_fill sqrtF buf w h color cx cy rx ry = .ok out ∧
      out.length = (w * h).toNat := by
  unfold ellipse_fill
  by_cases hr : rx ≤ 0 ∨ ry ≤ 0
  · rw [if_pos hr]
    by_cases h0 : rx = 0 ∧ ry = 0
    · rw [if_pos h0]
      exact put_ok buf w h cx cy color hlen
    · rw [if_neg h0]
      exact ⟨buf, rfl, hlen⟩
  · rw [if_neg hr]
    refine foldlM_invariant _ _ (fun b => b.length = (w * h).toNat) ?_ buf hlen
    intro b yy hb hmem
    simp only []
    by_cases hy : 0 ≤ yy ∧ yy < h
    · rw [if_pos hy]
      split
      · exact ⟨b, rfl, hb⟩
      · refine foldlM_invariant _ _ (fun b2 => b2.length = (w * h).toNat) ?_ b hb
        intro b2 xx hb2 hmem2
        simp only []
        by_cases hx : 0 ≤ xx ∧ xx < w
        · rw [if_pos hx]
          exact pySet_grid_ok b2 w h xx yy color hb2 hx.1 hx.2 hy.1 hy.2
        · rw [if_neg hx]
          exact ⟨b2, rfl, hb2⟩
    · rw [if_neg hy]
      exact ⟨b, rfl, hb⟩

theorem rect_fill_ok (buf : List Int) (w h color x y rw' rh : Int)
    (hlen : buf.length = (w * h).toNat) :
    ∃ out, rect_fill buf w h color x y rw' rh = .ok out ∧
      out.length = (w * h).toNat := by
  unfold rect_fill
  refine foldlM_invariant _ _ (fun b => b.length = (w * h).toNat) ?_ buf hlen
  intro b yy hb hmem
  simp only []
  by_cases hy : 0 ≤ yy ∧ yy < h
  · rw [if_pos hy]
    refine foldlM_invariant _ _ (fun b2 => b2.length = (w * h).toNat) ?_ b hb
    intro b2 xx hb2 hmem2
    simp only []
    by_cases hx : 0 ≤ xx ∧ xx < w
    · rw [if_pos hx]
      exact pySet_grid_ok b2 w h xx yy color hb2 hx.1 hx.2 hy.1 hy.2
    · rw [if_neg hx]
      exact ⟨b2, rfl, hb2⟩
  · rw [if_neg hy]
    exact ⟨b, rfl, hb⟩

theorem dither_rect_ok (buf : List Int) (w h color x y rw' rh : Int) (pattern : String)
    (hlen : buf.length = (w * h).toNat) :
    ∃ out, dither_rect buf w h color x y rw' rh pattern = .ok out ∧
      out.length = (w * h).toNat := by
  unfold dither_rect
  refine foldlM_invariant _ _ (fun b => b.length = (w * h).toNat) ?_ buf hlen
  intro b yy hb hmem
  simp only []
  by_cases hy : 0 ≤ yy ∧ yy < h
  · rw [if_pos hy]
    refine foldlM_invariant _ _ (fun b2 => b2.length = (w * h).toNat) ?_ b hb
    intro b2 xx hb2 hmem2
    simp only []
    by_cases hx : 0 ≤ xx ∧ xx < w
    · rw [if_pos hx]
      split
      · split
        · exact pySet_grid_ok b2 w h xx yy color hb2 hx.1 hx.2 hy.1 hy.2
        · exact ⟨b2, rfl, hb2⟩
      · split
        · split
          · exact pySet_grid_ok b2 w h xx yy color hb2 hx.1 hx.2 hy.1 hy.2
          · exact ⟨b2, rfl, hb2⟩
        · exact ⟨b2, rfl, hb2⟩
    · rw [if_neg hx]
      exact ⟨b2, rfl, hb2⟩
  · rw [if_neg hy]
    exact ⟨b, rfl, hb⟩

theorem rect_stroke_ok (buf : List Int) (w h color x y rw' rh : Int)
    (hlen : buf.length = (w * h).toNat) :
    ∃ out, rect_stroke buf w h color x y rw' rh = .ok out ∧
      out.length = (w * h).toNat := by
  unfold rect_stroke
  have hstep1 : ∃ b1, (rangeI 0 rw').foldlM (fun b i => do
      let b ← put b w h (x + i) y color
      put b w h (x + i) (y + rh - 1) color) buf = .ok b1 ∧
      b1.length = (w * h).toNat := by
    refine foldlM_invariant _ _ (fun b => b.length = (w * h).toNat) ?_ buf hlen
    intro b i hb hmem
    obtain ⟨c1, hp1, hl1⟩ := put_ok b w h (x + i) y color hb
    obtain ⟨c2, hp2, hl2⟩ := put_ok c1 w h (x + i) (y + rh - 1) color hl1
    exact ⟨c2, by simp only [hp1, except_bind_ok, hp2], hl2⟩
  obtain ⟨b1, h1, hl1⟩ := hstep1
  rw [h1, except_bind_ok]
  refine foldlM_invariant _ _ (fun b => b.length = (w * h).toNat) ?_ b1 hl1
  intro b j hb hmem
  obtain ⟨c1, hp1, hl1'⟩ := put_ok b w h x (y + j) color hb
  obtain ⟨c2, hp2, hl2⟩ := put_ok c1 w h (x + rw' - 1) (y + j) color hl1'
  exact ⟨c2, by simp only [hp1, except_bind_ok, hp2], hl2⟩

theorem ellipse_plot_ok (buf : List Int) (w h color cx cy px' py' : Int)
    (hlen : buf.length = (w * h).toNat) :
    ∃ out, ellipse_plot buf w h color cx cy px' py' = .ok out ∧
      out.length = (w * h).toNat := by
  unfold ellipse_plot
  obtain ⟨c1, hp1, hl1⟩ := put_ok buf w h (cx + px') (cy + py') color hlen
  obtain ⟨c2, hp2, hl2⟩ := put_ok c1 w h (cx - px') (cy + py') color hl1
  obtain ⟨c3, hp3, hl3⟩ := put_ok c2 w h (cx + px') (cy - py') color hl2
  obtain ⟨c4, hp4, hl4⟩ := put_ok c3 w h (cx - px') (cy - py') color hl3
  exact ⟨c4, by simp only [hp1, except_bind_ok, hp2, hp3, hp4], hl4⟩

theorem draw_bezier_ok (buf : List Int) (w h color x0 y0 cx cy x1 y1 : Int)
    (hlen : buf.length = (w * h).toNat) :
    ∃ out, draw_bezier buf w h color x0 y0 cx cy x1 y1 = .ok out ∧
      out.length = (w * h).toNat := by
  unfold draw_bezier
  refine foldlM_invariant _ _ (fun b => b.length = (w * h).toNat) ?_ buf hlen
  intro b i hb hmem
  simp only []
  exact put_ok b w h _ _ color hb

theorem draw_poly_ok (buf : List Int) (w h color : Int) (points : List (Frac × Frac))
    (hlen : buf.length = (w * h).toNat) :
    ∃ out, draw_poly buf w h color points = .ok out ∧
      out.length = (w * h).toNat := by
  cases points with
  | nil => exact ⟨buf, rfl, hlen⟩
  | cons p0 rest =>
    simp only [draw_poly]
    refine foldlM_invariant _ _ (fun b => b.length = (w * h).toNat) ?_ buf hlen
    intro b y hb hmem
    simp only []
    by_cases hy : 0 ≤ y ∧ y < h
    · rw [if_pos hy]
      refine foldlM_invariant _ _ (fun b2 => b2.length = (w * h).toNat) ?_ b hb
      intro b2 pr hb2 hmem2
      refine foldlM_invariant _ _ (fun b3 => b3.length = (w * h).toNat) ?_ b2 hb2
      intro b3 x hb3 hmem3
      simp only []
      by_cases hx : 0 ≤ x ∧ x < w
      · rw [if_pos hx]
        exact pySet_grid_ok b3 w h x y color hb3 hx.1 hx.2 hy.1 hy.2
      · rw [if_neg hx]
        exact ⟨b3, rfl, hb3⟩
    · rw [if_neg hy]
      exact ⟨b, rfl, hb⟩

theorem draw_thick_line_ok (sqrtF : Frac → Frac) (buf : List Int)
    (w h color x0 y0 x1 y1 thickness : Int) (hlen : buf.length = (w * h).toNat) :
    ∃ out, draw_thick_line sqrtF buf w h color x0 y0 x1 y1 thickness = .ok out ∧
      out.length = (w * h).toNat := by
  unfold draw_thick_line
  split
  · exact draw_line_ok buf w h color x0 y0 x1 y1 hlen
  · simp only []
    split
    · exact ellipse_fill_ok sqrtF buf w h color x0 y0 _ _ hlen
    · refine foldlM_invariant _ _ (fun b => b.length = (w * h).toNat) ?_ buf hlen
      intro b i hb hmem
      simp only []
      exact ellipse_fill_ok sqrtF b w h color _ _ _ _ hb

theorem capsule_fill_ok (sqrtF : Frac → Frac) (buf : List Int)
    (w h color x0 y0 x1 y1 r : Int) (hlen : buf.length = (w * h).toNat) :
    ∃ out, capsule_fill sqrtF buf w h color x0 y0 x1 y1 r = .ok out ∧
      out.length = (w * h).toNat :=
  draw_thick_line_ok sqrtF buf w h color x0 y0 x1 y1 (r * 2) hlen

/-- The palette index `int(t*(N-1))` of the gradients is in `[0, N)` for
any clamped parameter `t = a/b` with `0 ≤ a ≤ b`, `0 < b`, and `N ≥ 1`. -/
theorem pyTrunc_scale_bounds (a b : Int) (N : Nat) (hb : 0 < b) (ha0 : 0 ≤ a)
    (hab : a ≤ b) (hN : 1 ≤ N) :
    0 ≤ pyTrunc ((⟨a, b⟩ : Frac) * ((N : Frac) - 1)) ∧
    pyTrunc ((⟨a, b⟩ : Frac) * ((N : Frac) - 1)) < (N : Int) := by
  have hmul : (⟨a, b⟩ : Frac) * ((N : Frac) - 1) =
      (⟨a * ((N : Int) * 1 - 1 * 1), b * (1 * 1)⟩ : Frac) := rfl
  have hN1 : (0 : Int) ≤ (N : Int) * 1 - 1 * 1 := by
    have hN' : (1 : Int) ≤ (N : Int) := by exact_mod_cast hN
    omega
  have hm0 : 0 ≤ a * ((N : Int) * 1 - 1 * 1) := mul_nonneg ha0 hN1
  have hcond : (0 : Frac) ≤ (⟨a * ((N : Int) * 1 - 1 * 1), b * (1 * 1)⟩ : Frac) := by
    show (0 : Int) * (b * (1 * 1)) ≤ a * ((N : Int) * 1 - 1 * 1) * 1
    nlinarith
  have hval : pyTrunc (⟨a * ((N : Int) * 1 - 1 * 1), b * (1 * 1)⟩ : Frac) =
      (a * ((N : Int) * 1 - 1 * 1)).fdiv (b * (1 * 1)) := by
    unfold pyTrunc
    rw [if_pos hcond]
    rfl
  rw [hmul, hval]
  constructor
  · exact Int.fdiv_nonneg hm0 (by omega)
  · rw [Int.fdiv_eq_ediv _ (by omega)]
    rw [Int.ediv_lt_iff_lt_mul (by omega)]
    have h1 : a * ((N : Int) * 1 - 1 * 1) ≤ b * ((N : Int) - 1) := by nlinarith
    have h2 : b * ((N : Int) - 1) = b * (N : Int) - b := by ring
    nlinarith

/-- The clamp `max(0, min(1, t0))` always produces a fraction `a/b` with
`0 ≤ a ≤ b` and `0 < b`, whenever `t0` has a positive denominator. -/
theorem clamp01_spec (t0 : Frac) (hden : 0 < t0.den) :
    ∃ a b : Int, max (0 : Frac) (min 1 t0) = (⟨a, b⟩ : Frac) ∧
      0 < b ∧ 0 ≤ a ∧ a ≤ b := by
  have hmin : min (1 : Frac) t0 = (if (1 : Frac) ≤ t0 then (1 : Frac) else t0) := rfl
  by_cases h1 : (1 : Frac) ≤ t0
  · refine ⟨1, 1, ?_, by omega, by omega, by omega⟩
    rw [hmin, if_pos h1]
    show (if (0 : Frac) ≤ (1 : Frac) then (1 : Frac) else (0 : Frac)) = (⟨1, 1⟩ : Frac)
    rw [if_pos (by show (0 : Int) * 1 ≤ 1 * 1; omega)]
    rfl
  · by_cases h0 : (0 : Frac) ≤ t0
    · refine ⟨t0.num, t0.den, ?_, hden, ?_, ?_⟩
      · rw [hmin, if_neg h1]
        show (if (0 : Frac) ≤ t0 then t0 else (0 : Frac)) = (⟨t0.num, t0.den⟩ : Frac)
        rw [if_pos h0]
      · have h' : (0 : Int) * t0.den ≤ t0.num * 1 := h0
        omega
      · have h' : ¬ ((1 : Int) * t0.den ≤ t0.num * 1) := h1
        omega
    · refine ⟨0, 1, ?_, by omega, by omega, by omega⟩
      rw [hmin, if_neg h1]
      show (if (0 : Frac) ≤ t0 then t0 else (0 : Frac)) = (⟨0, 1⟩ : Frac)
      rw [if_neg h0]
      rfl

theorem gradient_radial_ok (sqrtF : Frac → Frac) (buf : List Int) (w h : Int)
    (pal : List Int) (cx cy r : Int)
    (hden : ∀ q, 0 < (sqrtF q).den) (hnn : ∀ q, (0 : Frac) ≤ q → (0 : Frac) ≤ sqrtF q)
    (hlen : buf.length = (w * h).toNat) :
    ∃ out, gradient_radial sqrtF buf w h pal cx cy r = .ok out ∧
      out.length = (w * h).toNat := by
  unfold gradient_radial
  by_cases hc : pal = [] ∨ r ≤ 0
  · rw [if_pos hc]
    exact ⟨buf, rfl, hlen⟩
  · rw [if_neg hc]
    push_neg at hc
    obtain ⟨hpal, hr⟩ := hc
    refine foldlM_invariant _ _ (fun b => b.length = (w * h).toNat) ?_ buf hlen
    intro b yy hb hmem
    refine foldlM_invariant _ _ (fun b2 => b2.length = (w * h).toNat) ?_ b hb
    intro b2 xx hb2 hmem2
    simp only []
    by_cases hbnds : in_bounds xx yy w h
    · rw [if_pos hbnds]
      set q : Frac := (((xx - cx) * (xx - cx) + (yy - cy) * (yy - cy) : Int) : Frac) with hq
      by_cases hdist : sqrtF q ≤ (r : Frac)
      · rw [if_pos hdist]
        have hq0 : (0 : Frac) ≤ q := by
          show (0 : Int) * 1 ≤ ((xx - cx) * (xx - cx) + (yy - cy) * (yy - cy)) * 1
          nlinarith [mul_self_nonneg (xx - cx), mul_self_nonneg (yy - cy)]
        have hnum0' : (0 : Int) * (sqrtF q).den ≤ (sqrtF q).num * 1 := hnn q hq0
        have hnum0 : 0 ≤ (sqrtF q).num := by omega
        have hdistle : (sqrtF q).num * 1 ≤ r * (sqrtF q).den := hdist
        have hdpos := hden q
        have hdivpos : 0 < (sqrtF q).den * r := mul_pos hdpos hr
        have ht : sqrtF q / (r : Frac) =
            (⟨(sqrtF q).num * 1, (sqrtF q).den * r⟩ : Frac) := by
          show (if (sqrtF q).den * r < 0 then
              (⟨-((sqrtF q).num * 1), -((sqrtF q).den * r)⟩ : Frac)
            else if (sqrtF q).den * r = 0 then (⟨0, 1⟩ : Frac)
            else (⟨(sqrtF q).num * 1, (sqrtF q).den * r⟩ : Frac)) =
            (⟨(sqrtF q).num * 1, (sqrtF q).den * r⟩ : Frac)
          rw [if_neg (by omega), if_neg (by omega)]
        rw [ht]
        have hN : 1 ≤ pal.length := List.length_pos.mpr hpal
        obtain ⟨hi0, hiN⟩ := pyTrunc_scale_bounds ((sqrtF q).num * 1) ((sqrtF q).den * r)
          pal.length hdivpos (by omega) (by nlinarith) hN
        obtain ⟨v, hv⟩ : ∃ v,
            pyIndex pal (pyTrunc ((⟨(sqrtF q).num * 1, (sqrtF q).den * r⟩ : Frac) *
              ((pal.length : Frac) - 1))) = .ok v :=
          ⟨_, pyIndex_pos pal _ hi0 (by omega)⟩
        rw [hv, except_bind_ok]
        exact pySet_grid_ok b2 w h xx yy v hb2 hbnds.1 hbnds.2.1 hbnds.2.2.1 hbnds.2.2.2
      · rw [if_neg hdist]
        exact ⟨b2, rfl, hb2⟩
    · rw [if_neg hbnds]
      exact ⟨b2, rfl, hb2⟩

theorem gradient_linear_ok (buf : List Int) (w h : Int) (pal : List Int)
    (x0 y0 x1 y1 : Int) (hlen : buf.length = (w * h).toNat) :
    ∃ out, gradient_linear buf w h pal x0 y0 x1 y1 = .ok out ∧
      out.length = (w * h).toNat := by
  unfold gradient_linear
  by_cases hp : pal = []
  · rw [if_pos hp]
    exact ⟨buf, rfl, hlen⟩
  · rw [if_neg hp]
    simp only []
    by_cases hls : (x1 - x0) * (x1 - x0) + (y1 - y0) * (y1 - y0) = 0
    · rw [if_pos hls]
      exact ⟨buf, rfl, hlen⟩
    · rw [if_neg hls]
      have hLnn : (0 : Int) ≤ (x1 - x0) * (x1 - x0) + (y1 - y0) * (y1 - y0) := by
        nlinarith [mul_self_nonneg (x1 - x0), mul_self_nonneg (y1 - y0)]
      have hLpos : 0 < (x1 - x0) * (x1 - x0) + (y1 - y0) * (y1 - y0) := by
        rcases lt_or_eq_of_le hLnn with hlt | heq
        · exact hlt
        · exact absurd heq.symm hls
      refine foldlM_invariant _ _ (fun b => b.length = (w * h).toNat) ?_ buf hlen
      intro b y hb hmem
      refine foldlM_invariant _ _ (fun b2 => b2.length = (w * h).toNat) ?_ b hb
      intro b2 x hb2 hmem2
      simp only []
      rw [mem_rangeI] at hmem hmem2
      have ht0 : (((x - x0) * (x1 - x0) + (y - y0) * (y1 - y0) : Int) : Frac) /
          (((x1 - x0) * (x1 - x0) + (y1 - y0) * (y1 - y0) : Int) : Frac) =
          (⟨((x - x0) * (x1 - x0) + (y - y0) * (y1 - y0)) * 1,
            1 * ((x1 - x0) * (x1 - x0) + (y1 - y0) * (y1 - y0))⟩ : Frac) := by
        show (if 1 * ((x1 - x0) * (x1 - x0) + (y1 - y0) * (y1 - y0)) < 0 then
            (⟨-(((x - x0) * (x1 - x0) + (y - y0) * (y1 - y0)) * 1),
              -(1 * ((x1 - x0) * (x1 - x0) + (y1 - y0) * (y1 - y0)))⟩ : Frac)
          else if 1 * ((x1 - x0) * (x1 - x0) + (y1 - y0) * (y1 - y0)) = 0 then
            (⟨0, 1⟩ : Frac)
          else (⟨((x - x0) * (x1 - x0) + (y - y0) * (y1 - y0)) * 1,
            1 * ((x1 - x0) * (x1 - x0) + (y1 - y0) * (y1 - y0))⟩ : Frac)) =
          (⟨((x - x0) * (x1 - x0) + (y - y0) * (y1 - y0)) * 1,
            1 * ((x1 - x0) * (x1 - x0) + (y1 - y0) * (y1 - y0))⟩ : Frac)
        rw [if_neg (by omega), if_neg (by omega)]
      rw [ht0]
      obtain ⟨a, bb, hT, hbpos, ha0, hab⟩ := clamp01_spec
        (⟨((x - x0) * (x1 - x0) + (y - y0) * (y1 - y0)) * 1,
          1 * ((x1 - x0) * (x1 - x0) + (y1 - y0) * (y1 - y0))⟩ : Frac)
        (by show (0 : Int) < 1 * ((x1 - x0) * (x1 - x0) + (y1 - y0) * (y1 - y0)); omega)
      rw [hT]
      have hN : 1 ≤ pal.length := List.length_pos.mpr hp
      obtain ⟨hi0, hiN⟩ := pyTrunc_scale_bounds a bb pal.length hbpos ha0 hab hN
      obtain ⟨v, hv⟩ : ∃ v,
          pyIndex pal (pyTrunc ((⟨a, bb⟩ : Frac) * ((pal.length : Frac) - 1))) = .ok v :=
        ⟨_, pyIndex_pos pal _ hi0 (by omega)⟩
      rw [hv, except_bind_ok]
      exact pySet_grid_ok b2 w h x y v hb2 hmem2.1 hmem2.2 hmem.1 hmem.2

theorem color_replace_ok (buf : List Int) (w h old_c new_c : Int)
    (mask : Option (List Int)) (hlen : buf.length = (w * h).toNat)
    (hm : ∀ m, mask = some m → m = [] ∨ m.length = (w * h).toNat) :
    ∃ out, color_replace buf w h old_c new_c mask = .ok out ∧
      out.length = (w * h).toNat := by
  unfold color_replace
  refine foldlM_invariant _ _ (fun b => b.length = (w * h).toNat) ?_ buf hlen
  intro b i hb hmem
  rw [mem_rangeI] at hmem
  obtain ⟨v, hv⟩ : ∃ v, pyIndex b i = .ok v := ⟨_, pyIndex_pos b i (by omega) (by omega)⟩
  have hbody : ∃ b', (do
      let v ← pyIndex b i
      if v = old_c then pySet b i new_c else Except.ok b) = .ok b' ∧
      b'.length = (w * h).toNat := by
    rw [hv, except_bind_ok]
    split
    · exact ⟨_, pySet_pos b i new_c (by omega) (by omega), by simp [hb]⟩
    · exact ⟨b, rfl, hb⟩
  obtain ⟨b', hb', hlb'⟩ := hbody
  cases mask with
  | none => exact ⟨b', hb', hlb'⟩
  | some m =>
    by_cases hme : m = []
    · refine ⟨b', ?_, hlb'⟩
      show (if m ≠ ([] : List Int) then (do
          let mv ← pyIndex m i
          if mv = 0 then Except.ok b
          else do
            let v ← pyIndex b i
            if v = old_c then pySet b i new_c else Except.ok b)
        else do
          let v ← pyIndex b i
          if v = old_c then pySet b i new_c else Except.ok b) = Except.ok b'
      rw [if_neg (by simpa using hme)]
      exact hb'
    · rcases hm m rfl with hcontra | hml
      · exact absurd hcontra hme
      obtain ⟨mv, hmv⟩ : ∃ x, pyIndex m i = .ok x :=
        ⟨_, pyIndex_pos m i (by omega) (by omega)⟩
      have hgoal : ∃ b2, (if m ≠ ([] : List Int) then (do
          let mv ← pyIndex m i
          if mv = 0 then Except.ok b
          else do
            let v ← pyIndex b i
            if v = old_c then pySet b i new_c else Except.ok b)
        else do
          let v ← pyIndex b i
          if v = old_c then pySet b i new_c else Except.ok b) = Except.ok b2 ∧
          b2.length = (w * h).toNat := by
        rw [if_pos hme, hmv, except_bind_ok]
        split
        · exact ⟨b, rfl, hb⟩
        · exact ⟨b', hb', hlb'⟩
      exact hgoal

theorem put_length (buf out : List Int) (w h x y v : Int)
    (h : put buf w h x y v = .ok out) : out.length = buf.length := by
  unfold put at h
  split at h
  · exact pySet_length _ _ _ _ h
  · cases h
    rfl

theorem ellipse_plot_spec (buf : List Int) (w h color cx cy px' py' : Int)
    (hlen : buf.length = (w * h).toNat) :
    ∀ res, ellipse_plot buf w h color cx cy px' py' = res →
      ∃ out, res = .ok out ∧ out.length = (w * h).toNat := by
  intro res hres
  obtain ⟨out, hout, hl⟩ := ellipse_plot_ok buf w h color cx cy px' py' hlen
  rw [hres] at hout
  exact ⟨out, hout, hl⟩

theorem ellipse_stroke_loop1_ok (w h color cx cy rx2 ry2 two_rx2 two_ry2 : Int)
    (hry : 0 < two_ry2) (hrx : 0 ≤ two_rx2) :
    ∀ (buf : List Int) (x y p px py : Int), buf.length = (w * h).toNat →
      ∃ out, ellipse_stroke_loop1 w h color cx cy rx2 ry2 two_rx2 two_ry2 hry hrx
          buf x y p px py = .ok out ∧
        out.1.length = (w * h).toNat := by
  intro buf x y p px py
  induction buf, x, y, p, px, py using ellipse_stroke_loop1.induct w h color cx cy rx2 ry2 two_rx2 two_ry2 hry hrx with
  | case1 buf x y p px py hlt x' y' e herr =>
    intro hlen
    obtain ⟨o, ho, _⟩ := ellipse_plot_spec buf w h color cx cy _ _ hlen _ herr
    exact Except.noConfusion ho
  | case2 buf x y p px py hlt x' px' y' py' p' buf' hplot ih =>
    intro hlen
    have hlen' : buf'.length = (w * h).toNat := by
      obtain ⟨o, ho, hl⟩ := ellipse_plot_spec buf w h color cx cy _ _ hlen _ hplot
      injection ho with ho'
      rw [ho']
      exact hl
    obtain ⟨out, hout, holen⟩ := ih hlen'
    refine ⟨out, ?_, holen⟩
    have hplot2 : ellipse_plot buf w h color cx cy (x + 1) (if p < 0 then y else y - 1) =
        Except.ok buf' := hplot
    have hout2 : ellipse_stroke_loop1 w h color cx cy rx2 ry2 two_rx2 two_ry2 hry hrx buf'
        (x + 1) (if p < 0 then y else y - 1)
        (if p < 0 then p + ry2 + (px + two_ry2)
          else p + ry2 + (px + two_ry2) - (py - two_rx2))
        (px + two_ry2) (if p < 0 then py else py - two_rx2) = Except.ok out := hout
    rw [ellipse_stroke_loop1.eq_def]
    rw [dif_pos hlt]
    simp only []
    rw [hplot2]
    exact hout2
  | case3 buf x y p px py hnlt =>
    intro hlen
    refine ⟨(buf, x, y, px, py), ?_, hlen⟩
    rw [ellipse_stroke_loop1.eq_def]
    rw [dif_neg hnlt]

theorem ellipse_stroke_loop1_spec (w h color cx cy rx2 ry2 two_rx2 two_ry2 : Int)
    (hry : 0 < two_ry2) (hrx : 0 ≤ two_rx2) (buf : List Int) (x y p px py : Int)
    (hlen : buf.length = (w * h).toNat) :
    ∀ res, ellipse_stroke_loop1 w h color cx cy rx2 ry2 two_rx2 two_ry2 hry hrx
        buf x y p px py = res →
      ∃ out, res = .ok out ∧ out.1.length = (w * h).toNat := by
  intro res hres
  obtain ⟨out, hout, hl⟩ :=
    ellipse_stroke_loop1_ok w h color cx cy rx2 ry2 two_rx2 two_ry2 hry hrx
      buf x y p px py hlen
  rw [hres] at hout
  exact ⟨out, hout, hl⟩

theorem ellipse_stroke_loop2_ok (w h color cx cy rx2 ry2 two_rx2 two_ry2 : Int) :
    ∀ (buf : List Int) (x y p px py : Int), buf.length = (w * h).toNat →
      ∃ out, ellipse_stroke_loop2 w h color cx cy rx2 ry2 two_rx2 two_ry2
          buf x y p px py = .ok out ∧
        out.length = (w * h).toNat := by
  intro buf x y p px py
  induction buf, x, y, p, px, py using ellipse_stroke_loop2.induct w h color cx cy rx2 ry2 two_rx2 two_ry2 with
  | case1 buf x y p px py hy y' x' e herr =>
    intro hlen
    obtain ⟨o, ho, _⟩ := ellipse_plot_spec buf w h color cx cy _ _ hlen _ herr
    exact Except.noConfusion ho
  | case2 buf x y p px py hy y' py' x' px' p' buf' hplot ih =>
    intro hlen
    have hlen' : buf'.length = (w * h).toNat := by
      obtain ⟨o, ho, hl⟩ := ellipse_plot_spec buf w h color cx cy _ _ hlen _ hplot
      injection ho with ho'
      rw [ho']
      exact hl
    obtain ⟨out, hout, holen⟩ := ih hlen'
    refine ⟨out, ?_, holen⟩
    have hplot2 : ellipse_plot buf w h color cx cy (if 0 < p then x else x + 1) (y - 1) =
        Except.ok buf' := hplot
    have hout2 : ellipse_stroke_loop2 w h color cx cy rx2 ry2 two_rx2 two_ry2 buf'
        (if 0 < p then x else x + 1) (y - 1)
        (if 0 < p then p + rx2 - (py - two_rx2)
          else p + rx2 - (py - two_rx2) + (px + two_ry2))
        (if 0 < p then px else px + two_ry2) (py - two_rx2) = Except.ok out := hout
    rw [ellipse_stroke_loop2.eq_def]
    rw [dif_pos hy]
    simp only []
    rw [hplot2]
    exact hout2
  | case3 buf x y p px py hny =>
    intro hlen
    refine ⟨buf, ?_, hlen⟩
    rw [ellipse_stroke_loop2.eq_def]
    rw [dif_neg hny]

theorem ellipse_stroke_loop2_spec (w h color cx cy rx2 ry2 two_rx2 two_ry2 : Int)
    (buf : List Int) (x y p px py : Int) (hlen : buf.length = (w * h).toNat) :
    ∀ res, ellipse_stroke_loop2 w h color cx cy rx2 ry2 two_rx2 two_ry2
        buf x y p px py = res →
      ∃ out, res = .ok out ∧ out.length = (w * h).toNat := by
  intro res hres
  obtain ⟨out, hout, hl⟩ :=
    ellipse_stroke_loop2_ok w h color cx cy rx2 ry2 two_rx2 two_ry2 buf x y p px py hlen
  rw [hres] at hout
  exact ⟨out, hout, hl⟩

theorem ellipse_stroke_ok (buf : List Int) (w h color cx cy rx ry : Int)
    (hlen : buf.length = (w * h).toNat) :
    ∃ out, ellipse_stroke buf w h color cx cy rx ry = .ok out ∧
      out.length = (w * h).toNat := by
  unfold ellipse_stroke
  split
  · exact ⟨buf, rfl, hlen⟩
  · simp only []
    split
    · rename_i e heq
      obtain ⟨o, ho, _⟩ := ellipse_plot_spec buf w h color cx cy _ _ hlen _ heq
      exact Except.noConfusion ho
    · rename_i b1 heq
      have hl1 : b1.length = (w * h).toNat := by
        obtain ⟨o, ho, hl⟩ := ellipse_plot_spec buf w h color cx cy _ _ hlen _ heq
        injection ho with ho'
        rw [ho']
        exact hl
      split
      · rename_i e heq2
        obtain ⟨o, ho, _⟩ :=
          ellipse_stroke_loop1_spec _ _ _ _ _ _ _ _ _ _ _ b1 _ _ _ _ _ hl1 _ heq2
        exact Except.noConfusion ho
      · rename_i b2 x2 y2 px2 py2 heq2
        obtain ⟨o, ho, hl⟩ :=
          ellipse_stroke_loop1_spec _ _ _ _ _ _ _ _ _ _ _ b1 _ _ _ _ _ hl1 _ heq2
        injection ho with ho'
        rw [← ho'] at hl
        obtain ⟨out, hout, holen⟩ :=
          ellipse_stroke_loop2_ok w h color cx cy _ _ _ _ b2 x2 y2 _ px2 py2 hl
        exact ⟨out, hout, holen⟩

theorem outline_scan_ok (work : List Int) (w h : Int) (hlen : work.length = (w * h).toNat) :
    ∃ add, outline_scan work w h = .ok add ∧ ∀ i ∈ add, 0 ≤ i ∧ i < w * h := by
  unfold outline_scan
  refine foldlM_invariant _ _ (fun acc => ∀ i ∈ acc, 0 ≤ i ∧ i < w * h) ?_ [] (by simp)
  intro acc y hacc hy
  rw [mem_rangeI] at hy
  refine foldlM_invariant _ _ (fun acc2 => ∀ i ∈ acc2, 0 ≤ i ∧ i < w * h) ?_ acc hacc
  intro acc2 x hacc2 hx
  rw [mem_rangeI] at hx
  simp only []
  obtain ⟨wv, hwv⟩ := pyIndex_grid_ok work w h x y hlen hx.1 hx.2 hy.1 hy.2
  rw [hwv, except_bind_ok]
  split
  · exact ⟨acc2, rfl, hacc2⟩
  · have hbody : ∀ (t : Bool) (dxy : Int × Int), True →
        dxy ∈ [((1 : Int), (0 : Int)), (-1, 0), (0, 1), (0, -1)] →
        ∃ t', (do
          if t then pure t
          else
            if 0 ≤ x + dxy.1 ∧ x + dxy.1 < w ∧ 0 ≤ y + dxy.2 ∧ y + dxy.2 < h then do
              let nv ← pyIndex work ((y + dxy.2) * w + (x + dxy.1))
              pure (nv != 0)
            else pure false : Except String Bool) = .ok t' ∧ True := by
      intro t dxy _ hmem
      split
      · exact ⟨t, rfl, trivial⟩
      · split
        · rename_i hg
          obtain ⟨nv, hnv⟩ := pyIndex_grid_ok work w h (x + dxy.1) (y + dxy.2) hlen
            hg.1 hg.2.1 hg.2.2.1 hg.2.2.2
          exact ⟨nv != 0, by rw [hnv]; rfl, trivial⟩
        · exact ⟨false, rfl, trivial⟩
    obtain ⟨t, ht, _⟩ := foldlM_invariant
      [((1 : Int), (0 : Int)), (-1, 0), (0, 1), (0, -1)]
      (fun t dxy => do
        if t then pure t
        else
          if 0 ≤ x + dxy.1 ∧ x + dxy.1 < w ∧ 0 ≤ y + dxy.2 ∧ y + dxy.2 < h then do
            let nv ← pyIndex work ((y + dxy.2) * w + (x + dxy.1))
            pure (nv != 0)
          else pure false)
      (fun _ => True) hbody false trivial
    rw [ht, except_bind_ok]
    split
    · refine ⟨acc2 ++ [y * w + x], rfl, ?_⟩
      intro i hi
      rcases List.mem_append.mp hi with hi | hi
      · exact hacc2 i hi
      · rw [List.mem_singleton] at hi
        subst hi
        exact in_bounds_index (⟨hx.1, hx.2, hy.1, hy.2⟩ : in_bounds x y w h)
    · exact ⟨acc2, rfl, hacc2⟩

theorem outline_apply_ok (dest work : List Int) (add : List Int) (color : Int) (w h : Int)
    (hd : dest.length = (w * h).toNat) (hw : work.length = (w * h).toNat)
    (hadd : ∀ i ∈ add, 0 ≤ i ∧ i < w * h) :
    ∃ dw, outline_apply dest work add color = .ok dw ∧
      dw.1.length = (w * h).toNat ∧ dw.2.length = (w * h).toNat := by
  unfold outline_apply
  have hbody : ∀ (dw : List Int × List Int) (i : Int),
      (dw.1.length = (w * h).toNat ∧ dw.2.length = (w * h).toNat) → i ∈ add →
      ∃ dw', (do
        let d ← pySet dw.1 i color
        let wk ← pySet dw.2 i 1
        pure (d, wk) : Except String (List Int × List Int)) = .ok dw' ∧
        (dw'.1.length = (w * h).toNat ∧ dw'.2.length = (w * h).toNat) := by
    intro dw i hdw hi
    obtain ⟨hi0, hiw⟩ := hadd i hi
    obtain ⟨hd1, hd2⟩ := hdw
    have hs1 := pySet_pos dw.1 i color hi0 (by omega)
    have hs2 := pySet_pos dw.2 i 1 hi0 (by omega)
    refine ⟨(dw.1.set i.toNat color, dw.2.set i.toNat 1), ?_, by simp [hd1], by simp [hd2]⟩
    rw [hs1, except_bind_ok, hs2, except_bind_ok]
    rfl
  obtain ⟨out, hout, hP⟩ := foldlM_invariant add
    (fun dw idx => do
      let d ← pySet dw.1 idx color
      let wk ← pySet dw.2 idx 1
      pure (d, wk))
    (fun dw : List Int × List Int =>
      dw.1.length = (w * h).toNat ∧ dw.2.length = (w * h).toNat)
    hbody (dest, work) ⟨hd, hw⟩
  exact ⟨out, hout, hP⟩

theorem outline_passes_ok (w h color : Int) :
    ∀ (n : Nat) (dest work : List Int), dest.length = (w * h).toNat →
      work.length = (w * h).toNat →
      ∃ out, outline_passes dest work w h color n = .ok out ∧
        out.length = (w * h).toNat := by
  intro n
  induction n with
  | zero =>
    intro dest work hd hw
    exact ⟨dest, rfl, hd⟩
  | succ m ih =>
    intro dest work hd hw
    obtain ⟨add, hadd, hbounds⟩ := outline_scan_ok work w h hw
    obtain ⟨dw, happly, h1, h2⟩ := outline_apply_ok dest work add color w h hd hw hbounds
    obtain ⟨out, hout, hol⟩ := ih dw.1 dw.2 h1 h2
    refine ⟨out, ?_, hol⟩
    simp only [outline_passes, hadd, except_bind_ok, happly]
    exact hout

theorem outline_layer_ok (buf : List Int) (w h thickness color : Int)
    (hlen : buf.length = (w * h).toNat) :
    ∃ out, outline_layer buf w h thickness color = .ok out ∧
      out.length = (w * h).toNat := by
  unfold outline_layer
  exact outline_passes_ok w h color thickness.toNat buf _ hlen (by simp [hlen])

theorem flood_loop_ok (w h target color : Int) (hne : target ≠ color) :
    ∀ (buf : List Int) (q : List (Int × Int)), buf.length = (w * h).toNat →
      ∃ out, flood_loop w h target color hne buf q = .ok out ∧
        out.length = (w * h).toNat := by
  intro buf q
  induction buf, q using flood_loop.induct w h target color hne with
  | case1 buf =>
    intro hlen
    exact ⟨buf, by simp only [flood_loop.eq_1], hlen⟩
  | case2 buf x y rest hb e hgeterr =>
    intro hlen
    obtain ⟨hi0, hiw⟩ := in_bounds_index hb
    rw [pyIndex_pos buf (y * w + x) hi0 (by omega)] at hgeterr
    exact Except.noConfusion hgeterr
  | case3 buf x y rest hb e hseterr hget =>
    intro hlen
    obtain ⟨hi0, hiw⟩ := in_bounds_index hb
    rw [pySet_pos buf (y * w + x) color hi0 (by omega)] at hseterr
    exact Except.noConfusion hseterr
  | case4 buf x y rest hb buf' hset hget ih =>
    intro hlen
    have hlen' : buf'.length = (w * h).toNat := (pySet_length _ _ _ _ hset).trans hlen
    obtain ⟨out, hout, hol⟩ := ih hlen'
    refine ⟨out, ?_, hol⟩
    simp only [flood_loop.eq_2]
    rw [dif_pos hb]
    split
    · rename_i e heq
      rw [hget] at heq
      exact Except.noConfusion heq
    · rename_i v heq
      rw [hget] at heq
      injection heq with heq'
      rw [dif_pos heq'.symm]
      split
      · rename_i e heq2
        rw [hset] at heq2
        exact Except.noConfusion heq2
      · rename_i buf'' heq2
        rw [hset] at heq2
        injection heq2 with heq2'
        rw [← heq2']
        exact hout
  | case5 buf x y rest hb v hget hv ih =>
    intro hlen
    obtain ⟨out, hout, hol⟩ := ih hlen
    refine ⟨out, ?_, hol⟩
    simp only [flood_loop.eq_2]
    rw [dif_pos hb]
    split
    · rename_i e heq
      rw [hget] at heq
      exact Except.noConfusion heq
    · rename_i v' heq
      rw [hget] at heq
      injection heq with heq'
      rw [dif_neg (heq' ▸ hv)]
      exact hout
  | case6 buf x y rest hnb ih =>
    intro hlen
    obtain ⟨out, hout, hol⟩ := ih hlen
    refine ⟨out, ?_, hol⟩
    simp only [flood_loop.eq_2]
    rw [dif_neg hnb]
    exact hout

theorem flood_fill_ok (buf : List Int) (w h color sx sy : Int)
    (hlen : buf.length = (w * h).toNat) :
    ∃ out, flood_fill buf w h color sx sy = .ok out ∧
      out.length = (w * h).toNat := by
  unfold flood_fill
  split
  · rename_i hb
    obtain ⟨hi0, hiw⟩ := in_bounds_index hb
    split
    · rename_i e heq
      rw [pyIndex_pos buf (sy * w + sx) hi0 (by omega)] at heq
      exact Except.noConfusion heq
    · rename_i target heq
      split
      · exact ⟨buf, rfl, hlen⟩
      · rename_i htc
        exact flood_loop_ok w h target color htc buf [(sx, sy)] hlen
  · exact ⟨buf, rfl, hlen⟩

/-- C4: bounds safety.  On a buffer of exactly `w * h` cells every raster
primitive succeeds (never raises) for all integer argument values, and the
buffer's length is unchanged.  Every buffer write goes through the guarded
`put` (or an equivalent `0 ≤ xx < w ∧ 0 ≤ yy < h` guard), and the first
conjunct shows `put` either leaves the buffer untouched or writes at an
index `y * w + x ∈ [0, w * h)`.  The sqrt oracle is only assumed to return
fractions with positive denominator and to be nonnegative on nonnegative
inputs (true of `math.sqrt`); `color_replace` additionally needs its
optional mask (a list argument, not an integer) to be absent, empty or of
canvas size, as a short mask raises IndexError in Python itself. -/
theorem raster_bounds_safety (sqrtF : Frac → Frac) (w h : Int) (buf : List Int)
    (hbuf : buf.length = (w * h).toNat)
    (hden : ∀ q, 0 < (sqrtF q).den)
    (hnn : ∀ q, (0 : Frac) ≤ q → (0 : Frac) ≤ sqrtF q) :
    (∀ x y v, put buf w h x y v = .ok buf ∨
      (in_bounds x y w h ∧ 0 ≤ y * w + x ∧ y * w + x < w * h ∧
        put buf w h x y v = .ok (buf.set (y * w + x).toNat v))) ∧
    (∀ color x0 y0 x1 y1, ∃ out, draw_line buf w h color x0 y0 x1 y1 = .ok out ∧
      out.length = buf.length) ∧
    (∀ color x0 y0 x1 y1 t, ∃ out,
      draw_thick_line sqrtF buf w h color x0 y0 x1 y1 t = .ok out ∧
      out.length = buf.length) ∧
    (∀ color x y rw' rh, ∃ out, rect_stroke buf w h color x y rw' rh = .ok out ∧
      out.length = buf.length) ∧
    (∀ color x y rw' rh, ∃ out, rect_fill buf w h color x y rw' rh = .ok out ∧
      out.length = buf.length) ∧
    (∀ color cx cy rx ry, ∃ out, ellipse_fill sqrtF buf w h color cx cy rx ry = .ok out ∧
      out.length = buf.length) ∧
    (∀ color cx cy rx ry, ∃ out, ellipse_stroke buf w h color cx cy rx ry = .ok out ∧
      out.length = buf.length) ∧
    (∀ color x0 y0 cx cy x1 y1, ∃ out,
      draw_bezier buf w h color x0 y0 cx cy x1 y1 = .ok out ∧
      out.length = buf.length) ∧
    (∀ color points, ∃ out, draw_poly buf w h color points = .ok out ∧
      out.length = buf.length) ∧
    (∀ color sx sy, ∃ out, flood_fill buf w h color sx sy = .ok out ∧
      out.length = buf.length) ∧
    (∀ color x y rw' rh pattern, ∃ out,
      dither_rect buf w h color x y rw' rh pattern = .ok out ∧
      out.length = buf.length) ∧
    (∀ pal cx cy r, ∃ out, gradient_radial sqrtF buf w h pal cx cy r = .ok out ∧
      out.length = buf.length) ∧
    (∀ pal x0 y0 x1 y1, ∃ out, gradient_linear buf w h pal x0 y0 x1 y1 = .ok out ∧
      out.length = buf.length) ∧
    (∀ old_c new_c mask, (∀ m, mask = some m → m = [] ∨ m.length = (w * h).toNat) →
      ∃ out, color_replace buf w h old_c new_c mask = .ok out ∧
      out.length = buf.length) ∧
    (∀ thickness color, ∃ out, outline_layer buf w h thickness color = .ok out ∧
      out.length = buf.length) := by
  refine ⟨fun x y v => ?_, fun color x0 y0 x1 y1 => ?_, fun color x0 y0 x1 y1 t => ?_,
    fun color x y rw' rh => ?_, fun color x y rw' rh => ?_, fun color cx cy rx ry => ?_,
    fun color cx cy rx ry => ?_, fun color x0 y0 cx cy x1 y1 => ?_, fun color points => ?_,
    fun color sx sy => ?_, fun color x y rw' rh pattern => ?_, fun pal cx cy r => ?_,
    fun pal x0 y0 x1 y1 => ?_, fun old_c new_c mask hm => ?_, fun thickness color => ?_⟩
  · rcases put_spec buf w h x y v hbuf with ⟨_, hp⟩ | ⟨h1, h2, h3, hp⟩
    · exact Or.inl hp
    · exact Or.inr ⟨h1, h2, h3, hp⟩
  · obtain ⟨out, ho, hl⟩ := draw_line_ok buf w h color x0 y0 x1 y1 hbuf
    exact ⟨out, ho, by rw [hl, hbuf]⟩
  · obtain ⟨out, ho, hl⟩ := draw_thick_line_ok sqrtF buf w h color x0 y0 x1 y1 t hbuf
    exact ⟨out, ho, by rw [hl, hbuf]⟩
  · obtain ⟨out, ho, hl⟩ := rect_stroke_ok buf w h color x y rw' rh hbuf
    exact ⟨out, ho, by rw [hl, hbuf]⟩
  · obtain ⟨out, ho, hl⟩ := rect_fill_ok buf w h color x y rw' rh hbuf
    exact ⟨out, ho, by rw [hl, hbuf]⟩
  · obtain ⟨out, ho, hl⟩ := ellipse_fill_ok sqrtF buf w h color cx cy rx ry hbuf
    exact ⟨out, ho, by rw [hl, hbuf]⟩
  · obtain ⟨out, ho, hl⟩ := ellipse_stroke_ok buf w h color cx cy rx ry hbuf
    exact ⟨out, ho, by rw [hl, hbuf]⟩
  · obtain ⟨out, ho, hl⟩ := draw_bezier_ok buf w h color x0 y0 cx cy x1 y1 hbuf
    exact ⟨out, ho, by rw [hl, hbuf]⟩
  · obtain ⟨out, ho, hl⟩ := draw_poly_ok buf w h color points hbuf
    exact ⟨out, ho, by rw [hl, hbuf]⟩
  · obtain ⟨out, ho, hl⟩ := flood_fill_ok buf w h color sx sy hbuf
    exact ⟨out, ho, by rw [hl, hbuf]⟩
  · obtain ⟨out, ho, hl⟩ := dither_rect_ok buf w h color x y rw' rh pattern hbuf
    exact ⟨out, ho, by rw [hl, hbuf]⟩
  · obtain ⟨out, ho, hl⟩ := gradient_radial_ok sqrtF buf w h pal cx cy r hden hnn hbuf
    exact ⟨out, ho, by rw [hl, hbuf]⟩
  · obtain ⟨out, ho, hl⟩ := gradient_linear_ok buf w h pal x0 y0 x1 y1 hbuf
    exact ⟨out, ho, by rw [hl, hbuf]⟩
  · obtain ⟨out, ho, hl⟩ := color_replace_ok buf w h old_c new_c mask hbuf hm
    exact ⟨out, ho, by rw [hl, hbuf]⟩
  · obtain ⟨out, ho, hl⟩ := outline_layer_ok buf w h thickness color hbuf
    exact ⟨out, ho, by rw [hl, hbuf]⟩

/-- Witness for `raster_bounds_safety` on a concrete 1×1 canvas. -/
theorem raster_bounds_safety_witness :
    ∃ out, draw_line [(0 : Int)] 1 1 7 0 0 0 0 = .ok out ∧
      out.length = ([(0 : Int)] : List Int).length :=
  (raster_bounds_safety (fun _ => 0) 1 1 [0] (by decide)
    (fun _ => (by decide : (0 : Int) < 1))
    (fun _ _ => (by decide : (0 : Int) * 1 ≤ 0 * 1))).2.1 7 0 0 0 0

theorem join_eq_nil_all {α : Type} {L : List (List α)} (h : L.join = []) :
    ∀ l ∈ L, l = [] := by
  induction L with
  | nil =>
    intro l hl
    simp at hl
  | cons a L ih =>
    simp only [List.join_cons] at h
    obtain ⟨ha, hL⟩ := List.append_eq_nil.mp h
    intro l hl
    rcases List.mem_cons.mp hl with rfl | hl
    · exact ha
    · exact ih hL l hl

theorem validate_ops_nil_elim (psize fidx : Nat) (strict : Bool) :
    ∀ (ops : List JVal) (k : Nat) (env : List String),
      validate_ops ops k psize env fidx strict = [] →
      ∀ (j : Nat) (op : JVal), ops[j]? = some op →
        validate_op op (k + j) psize (layers_upto (ops.take j) env) fidx strict = [] := by
  intro ops
  induction ops with
  | nil =>
    intro k env _ j op hj
    simp at hj
  | cons o rest ih =>
    intro k env h j op hj
    simp only [validate_ops] at h
    obtain ⟨h1, h2⟩ := List.append_eq_nil.mp h
    cases j with
    | zero =>
      simp only [List.getElem?_cons_zero] at hj
      injection hj with hj'
      subst hj'
      exact h1
    | succ m =>
      have hrec := ih (k + 1)
        (match layer_begin_name o with
          | some nm => env ++ [nm]
          | none => env) h2 m op (by simpa using hj)
      have hkm : k + (m + 1) = k + 1 + m := by omega
      rw [hkm]
      exact hrec

theorem validate_op_nil_elim (op : JVal) (j psize : Nat) (env : List String)
    (fidx : Nat) (strict : Bool)
    (h : validate_op op j psize env fidx strict = []) :
    ∃ name args spec, op = .jlist (.jstr name :: args) ∧
      get_op_spec name = some spec ∧
      spec.min_args ≤ args.length ∧ args.length ≤ spec.max_args := by
  match op with
  | .jint n => simp [validate_op] at h
  | .jstr s => simp [validate_op] at h
  | .jrat q => simp [validate_op] at h
  | .jlist [] => simp [validate_op] at h
  | .jlist (nameV :: args) =>
    match nameV with
    | .jint _ => simp [validate_op] at h
    | .jrat _ => simp [validate_op] at h
    | .jlist _ => simp [validate_op] at h
    | .jstr name =>
      match hspec : get_op_spec name with
      | none =>
        simp only [validate_op, hspec] at h
        simp at h
      | some spec =>
        simp only [validate_op, hspec] at h
        obtain ⟨h123, _⟩ := List.append_eq_nil.mp h
        obtain ⟨h12, _⟩ := List.append_eq_nil.mp h123
        obtain ⟨h1, _⟩ := List.append_eq_nil.mp h12
        refine ⟨name, args, spec, rfl, hspec, ?_, ?_⟩
        · by_cases hmin : args.length < spec.min_args
          · rw [if_pos hmin] at h1
            simp at h1
          · omega
        · by_cases hmin : args.length < spec.min_args
          · rw [if_pos hmin] at h1
            simp at h1
          · rw [if_neg hmin] at h1
            by_cases hmax : args.length > spec.max_args
            · rw [if_pos hmax] at h1
              simp at h1
            · omega

/-- C1 amended: what the validator does guarantee.  A document accepted by
`validate_sprite` has `format = "spriteops"`, a canvas with positive
dimensions, a non-empty palette and a non-empty frame list, and every op
of every concrete (base-less) frame passes the per-op static checks with
the layer environment threaded left to right: in particular each such op
is a non-empty list whose head is a known op name applied to an argument
count within the schema bounds.  (Nothing is guaranteed about the ops a
derived frame contributes through `overrides`/`append_ops`, which is what
the counterexample exploits.) -/
theorem validator_accept_static_checks (doc : Doc) (strict : Bool)
    (hacc : validate_sprite doc strict = []) :
    doc.format = "spriteops" ∧
    (∃ c, doc.canvas = some c ∧ 0 < c.w ∧ 0 < c.h) ∧
    (∃ p, doc.palette = some p ∧ p ≠ []) ∧
    (∃ fs, doc.frames = some fs ∧ fs ≠ [] ∧
      ∀ (i : Nat) (fr : Frame), fs[i]? = some fr → fr.base = none →
        ∃ ops, fr.ops = some ops ∧
          ∀ (j : Nat) (op : JVal), ops[j]? = some op →
            validate_op op j (doc.palette.getD []).length
              (layers_upto (ops.take j) ["base"]) i strict = [] ∧
            ∃ name args spec, op = .jlist (.jstr name :: args) ∧
              get_op_spec name = some spec ∧
              spec.min_args ≤ args.length ∧ args.length ≤ spec.max_args) := by
  unfold validate_sprite at hacc
  obtain ⟨habcd, hanim⟩ := List.append_eq_nil.mp hacc
  obtain ⟨habc, hd⟩ := List.append_eq_nil.mp habcd
  obtain ⟨hab, hc⟩ := List.append_eq_nil.mp habc
  obtain ⟨ha, hb⟩ := List.append_eq_nil.mp hab
  refine ⟨?_, ?_, ?_, ?_⟩
  · by_contra hne
    rw [if_pos hne] at ha
    simp at ha
  · cases hc0 : doc.canvas with
    | none =>
      simp only [hc0] at hb
      simp at hb
    | some c =>
      simp only [hc0] at hb
      by_cases hwh : c.w ≤ 0 ∨ c.h ≤ 0
      · rw [if_pos hwh] at hb
        simp at hb
      · push_neg at hwh
        exact ⟨c, rfl, hwh.1, hwh.2⟩
  · cases hp0 : doc.palette with
    | none =>
      simp only [hp0] at hc
      simp at hc
    | some p =>
      simp only [hp0] at hc
      by_cases hpl : p.length = 0
      · rw [if_pos hpl] at hc
        simp at hc
      · refine ⟨p, rfl, ?_⟩
        intro hnil
        subst hnil
        simp at hpl
  · cases hf0 : doc.frames with
    | none =>
      simp only [hf0] at hd
      simp at hd
    | some fs =>
      simp only [hf0] at hd
      by_cases hflen : fs.length = 0
      · rw [if_pos hflen] at hd
        simp at hd
      · rw [if_neg hflen] at hd
        refine ⟨fs, rfl, ?_, ?_⟩
        · intro hnil
          subst hnil
          simp at hflen
        · intro i fr hged hbase
          have hmem : (i, fr) ∈ fs.enum := List.mk_mem_enum_iff_getElem?.mpr hged
          have hfr : validate_frame fr i (doc.palette.getD []).length strict = [] := by
            refine join_eq_nil_all hd _ ?_
            exact List.mem_map.mpr ⟨(i, fr), hmem, rfl⟩
          simp only [validate_frame, hbase] at hfr
          cases hops0 : fr.ops with
          | none =>
            simp only [hops0] at hfr
            simp at hfr
          | some ops =>
            simp only [hops0] at hfr
            refine ⟨ops, rfl, ?_⟩
            intro j op hj
            have hvop := validate_ops_nil_elim (doc.palette.getD []).length i strict
              ops 0 ["base"] hfr j op hj
            rw [Nat.zero_add] at hvop
            exact ⟨hvop, validate_op_nil_elim op j _ _ i strict hvop⟩

/-- Witness for `validator_accept_static_checks` on a concrete accepted
document. -/
theorem validator_accept_static_checks_witness :
    doc_unknown_append.format = "spriteops" ∧
    (∃ c, doc_unknown_append.canvas = some c ∧ 0 < c.w ∧ 0 < c.h) := by
  have hres := validator_accept_static_checks doc_unknown_append false (by decide)
  exact ⟨hres.1, hres.2.1⟩

/-- Witness for `thick_line_semantics` at a concrete input taking the
positive-length branch. -/
theorem thick_line_semantics_witness :
    draw_thick_line (fun _ => 5) [0, 0, 0, 0] 2 2 7 0 0 1 1 3 =
      stamp_walk (fun _ => 5) [0, 0, 0, 0] 2 2 7 0 0 1 1 1
        (pyTrunc ((5 : Frac) * 2)) :=
  ((thick_line_semantics (fun _ => 5) [0, 0, 0, 0] 2 2 7 0 0 1 1 3).2
    (by decide)).2 (by decide)

end Spriteforge
